import Mathlib

/-!
MultiThreadedQ : a bounded, drop-oldest circular queue

Shallow embedding of `include/multithread_queue.hpp` (class `Queue<T>`).

* The fields `front`, `rear`, `count` (C++ `int`) are integers, `queueSize`
  (C++ `unsigned`) is a natural number, and the heap block `new T[queueSize]` is a
  list of slots.  A slot is `none` while it holds the indeterminate value left by
  `new T[...]` and `some e` once `e` has been assigned to it.
* Every member function runs its critical section under `qMutex`, so a call is one
  atomic transition of the queue state, except at a condition-variable wait, where
  the lock is released.  What happens during a wait is supplied from outside: the
  steps other threads performed on the queue meanwhile, and (for `wait_until`) the
  returned `std::cv_status`.
* Printing to `std::cout` does not change the state; the lines a call prints are given
  by the separate `printed` functions.
* The functions with suffix `32` (`Queue.new32`, `Queue.Push32`, `Queue.Pop32`, ...) are
  the member functions in the arithmetic of the code: 32-bit `int` and `unsigned` with
  their conversions.  The functions without the suffix are the same functions over the
  unbounded integers; they coincide with the 32-bit ones for capacities from 1 up to
  `2^31 - 1` and serve to reason about them.  Above `2^31 - 1` the two differ, and the
  statements that depend on the capacity are made about the 32-bit functions.
-/

set_option autoImplicit false

namespace MultiThreadedQ

/-! ## Data model -/

/-- Members of `template <typename T> class Queue` (lines 37-41). -/
structure Queue (T : Type) where
  /-- Field `int front`, the front of the queue. -/
  front : Int
  /-- Field `int rear`, the back of the queue. -/
  rear : Int
  /-- Field `int count`, the current number of elements. -/
  count : Int
  /-- Field `unsigned queueSize`, the maximum number of elements. -/
  queueSize : Nat
  /-- Field `T* array`, the block of `queueSize` slots. -/
  array : List (Option T)
deriving DecidableEq, Repr

/-- How a call of a member function ends. -/
inductive Outcome (α : Type) where
  /-- The call returned `value`. -/
  | returned (value : α)
  /-- The call threw `std::range_error(what)`. -/
  | threw (what : String)
  /-- The call is still suspended in a wait after all supplied wake-ups. -/
  | blocked
deriving DecidableEq, Repr

/-- Result type `std::cv_status` of `condition_variable::wait_until`. -/
inductive cv_status where
  | no_timeout
  | timeout
deriving DecidableEq, Repr

/-- One critical section executed by another thread while the caller waits. -/
inductive EnvStep (T : Type) where
  /-- Another thread ran `Push(element)`. -/
  | push (element : T)
  /-- Another thread ran the dequeue of `Pop` / `PopWithTimeout`. -/
  | pop
deriving DecidableEq, Repr

/-- What one call of `wait_until(lock, deadline)` did: the steps of other threads
while the lock was released, and the status it returned. -/
structure WaitReturn (T : Type) where
  env : List (EnvStep T)
  status : cv_status
deriving DecidableEq, Repr

/-- Read `array[i]`; outside the allocated block the value is indeterminate. -/
def readSlot {T : Type} (array : List (Option T)) (i : Int) : Option T :=
  if 0 ≤ i then array.getD i.toNat none else none

/-- Assignment `array[i] = element`. -/
def writeSlot {T : Type} (array : List (Option T)) (i : Int) (element : T) : List (Option T) :=
  if 0 ≤ i then array.set i.toNat (some element) else array

/-! ## Member functions -/

/-- Constructor `Queue(unsigned size)` (lines 50-55) over the unbounded integers; it is
named `new` here because a structure and a function in its namespace cannot share the
name `Queue`.  `Queue.new32` computes `size - 1` as the code does, and
`Queue.construct` adds the allocation. -/
def Queue.new {T : Type} (size : Nat) : Queue T :=
  { queueSize := size
    front := 0
    count := 0
    rear := (size : Int) - 1
    array := List.replicate size none }

/-- Member `void Push(T element)` (lines 60-77) over the unbounded integers: when the
queue is full the front element is dropped first, then `element` is stored behind
`rear`.  `Queue.Push32` is the same in the arithmetic of the code. -/
def Queue.Push {T : Type} (q : Queue T) (element : T) : Queue T :=
  let q1 : Queue T :=
    if q.count = (q.queueSize : Int) then
      { q with front := (q.front + 1) % (q.queueSize : Int), count := q.count - 1 }
    else q
  let rear1 : Int := (q1.rear + 1) % (q1.queueSize : Int)
  { q1 with rear := rear1, array := writeSlot q1.array rear1 element, count := q1.count + 1 }

/-- State change of the dequeue another thread performs (lines 92-93, 120-121), over
the unbounded integers; that thread stays in its wait while `count` is 0. -/
def Queue.removeFront {T : Type} (q : Queue T) : Queue T :=
  if q.count ≠ 0 then
    { q with front := (q.front + 1) % (q.queueSize : Int), count := q.count - 1 }
  else q

/-- Effect on the queue of the steps other threads take during one wait. -/
def Queue.interfere {T : Type} : Queue T → List (EnvStep T) → Queue T
  | q, [] => q
  | q, EnvStep.push e :: rest => Queue.interfere (q.Push e) rest
  | q, EnvStep.pop :: rest => Queue.interfere q.removeFront rest

/-- Member `T Pop()` (lines 82-96) over the unbounded integers.  `wait(lock, pred)` is
`while (!pred()) wait(lock)`; `wakes` lists, for each return of the inner `wait`, what
other threads did. -/
def Queue.Pop {T : Type} : Queue T → List (List (EnvStep T)) → Outcome (Option T) × Queue T
  | q, [] =>
    if q.count ≠ 0 then
      (Outcome.returned (readSlot q.array q.front),
        { q with front := (q.front + 1) % (q.queueSize : Int), count := q.count - 1 })
    else (Outcome.blocked, q)
  | q, w :: ws =>
    if q.count ≠ 0 then
      (Outcome.returned (readSlot q.array q.front),
        { q with front := (q.front + 1) % (q.queueSize : Int), count := q.count - 1 })
    else Queue.Pop (q.interfere w) ws

/-- The `while (count == 0)` loop and the dequeue of `PopWithTimeout` (lines 108-123),
for a fixed `thresholdTime`, over the unbounded integers.  Each element of `waits`
answers one call of `wait_until(lock, thresholdTime)`. -/
def Queue.PopWithTimeout.loop {T : Type} (thresholdTime : Int) :
    Queue T → List (Int → WaitReturn T) → Outcome (Option T) × Queue T
  | q, [] =>
    if q.count = 0 then (Outcome.blocked, q)
    else
      (Outcome.returned (readSlot q.array q.front),
        { q with front := (q.front + 1) % (q.queueSize : Int), count := q.count - 1 })
  | q, w :: ws =>
    if q.count = 0 then
      let res := w thresholdTime
      let q1 := q.interfere res.env
      if res.status = cv_status.timeout then
        (Outcome.threw "Can't pop because the queue is already empty.", q1)
      else Queue.PopWithTimeout.loop thresholdTime q1 ws
    else
      (Outcome.returned (readSlot q.array q.front),
        { q with front := (q.front + 1) % (q.queueSize : Int), count := q.count - 1 })

/-- Member `T PopWithTimeout(int milliseconds)` (lines 102-124); `now` is the value
read from `std::chrono::system_clock::now()` on entry. -/
def Queue.PopWithTimeout {T : Type} (q : Queue T) (now milliseconds : Int)
    (waits : List (Int → WaitReturn T)) : Outcome (Option T) × Queue T :=
  let thresholdTime := now + milliseconds
  Queue.PopWithTimeout.loop thresholdTime q waits

/-- Member `int Count()` (lines 129-133). -/
def Queue.Count {T : Type} (q : Queue T) : Int := q.count

/-- Member `unsigned Size()` (lines 138-142). -/
def Queue.Size {T : Type} (q : Queue T) : Nat := q.queueSize

/-! ## Sequences of calls -/

/-- One call of a member function, with what the outside world does during its waits. -/
inductive Call (T : Type) where
  | Push (element : T)
  | Pop (wakes : List (List (EnvStep T)))
  | PopWithTimeout (now milliseconds : Int) (waits : List (Int → WaitReturn T))

/-- Run calls one after the other (they are serialised by `qMutex`).  The result is the
outcome of every `Pop` / `PopWithTimeout` call, in order, and the final state.  A call
that is still blocked leaves the state it reached; the calls after it are then made
by other threads. -/
def Queue.run {T : Type} : Queue T → List (Call T) → List (Outcome (Option T)) × Queue T
  | q, [] => ([], q)
  | q, Call.Push e :: cs => Queue.run (q.Push e) cs
  | q, Call.Pop wakes :: cs =>
    let r := q.Pop wakes
    let rest := Queue.run r.2 cs
    (r.1 :: rest.1, rest.2)
  | q, Call.PopWithTimeout now ms waits :: cs =>
    let r := q.PopWithTimeout now ms waits
    let rest := Queue.run r.2 cs
    (r.1 :: rest.1, rest.2)

/-- The live contents: the `count` slots read from `front` onward with wraparound. -/
def Queue.contents {T : Type} (q : Queue T) : List (Option T) :=
  (List.range q.count.toNat).map
    (fun (i : Nat) => readSlot q.array ((q.front + (i : Int)) % (q.queueSize : Int)))

/-- Representation invariant of a queue in use. -/
structure Queue.WF {T : Type} (q : Queue T) : Prop where
  size_pos : 0 < q.queueSize
  array_len : q.array.length = q.queueSize
  front_lo : 0 ≤ q.front
  front_hi : q.front < (q.queueSize : Int)
  rear_lo : 0 ≤ q.rear
  rear_hi : q.rear < (q.queueSize : Int)
  count_lo : 0 ≤ q.count
  count_hi : q.count ≤ (q.queueSize : Int)
  next_write : (q.rear + 1) % (q.queueSize : Int) = (q.front + q.count) % (q.queueSize : Int)

/-! ## Reference model: a bounded FIFO list -/

/-- Reference push: append the element, then keep only the last `C` elements. -/
def Ref.push {T : Type} (C : Nat) (l : List T) (e : T) : List T :=
  (l ++ [e]).drop ((l ++ [e]).length - C)

/-- Reference effect of the steps of other threads during one wait. -/
def Ref.interfere {T : Type} (C : Nat) : List T → List (EnvStep T) → List T
  | l, [] => l
  | l, EnvStep.push e :: rest => Ref.interfere C (Ref.push C l e) rest
  | l, EnvStep.pop :: rest => Ref.interfere C l.tail rest

/-- Reference blocking pop: a successful pop removes and returns the first element. -/
def Ref.Pop {T : Type} (C : Nat) : List T → List (List (EnvStep T)) → Outcome (Option T) × List T
  | e :: l, _ => (Outcome.returned (some e), l)
  | [], [] => (Outcome.blocked, [])
  | [], w :: ws => Ref.Pop C (Ref.interfere C [] w) ws

/-- Reference timed pop: as the blocking pop, but a wait that reports a timeout ends
the call with the error and without removing anything. -/
def Ref.PopWithTimeout {T : Type} (C : Nat) (deadline : Int) :
    List T → List (Int → WaitReturn T) → Outcome (Option T) × List T
  | e :: l, _ => (Outcome.returned (some e), l)
  | [], [] => (Outcome.blocked, [])
  | [], w :: ws =>
    if (w deadline).status = cv_status.timeout then
      (Outcome.threw "Can't pop because the queue is already empty.",
        Ref.interfere C [] (w deadline).env)
    else Ref.PopWithTimeout C deadline (Ref.interfere C [] (w deadline).env) ws

/-- Reference run of a sequence of calls. -/
def Ref.run {T : Type} (C : Nat) : List T → List (Call T) → List (Outcome (Option T)) × List T
  | l, [] => ([], l)
  | l, Call.Push e :: cs => Ref.run C (Ref.push C l e) cs
  | l, Call.Pop wakes :: cs =>
    let r := Ref.Pop C l wakes
    let rest := Ref.run C r.2 cs
    (r.1 :: rest.1, rest.2)
  | l, Call.PopWithTimeout now ms waits :: cs =>
    let r := Ref.PopWithTimeout C (now + ms) l waits
    let rest := Ref.run C r.2 cs
    (r.1 :: rest.1, rest.2)

/-- Simulation relation between a queue of capacity `C` and a reference list. -/
def Refines {T : Type} (C : Nat) (q : Queue T) (l : List T) : Prop :=
  q.queueSize = C ∧ q.WF ∧ q.contents = l.map some

/-- The dequeue step of `Pop` (lines 89-95) and of `PopWithTimeout` (lines 117-123):
read `array[front]`, advance `front`, decrement `count`, return the element. -/
def Queue.dequeue {T : Type} (q : Queue T) : Outcome (Option T) × Queue T :=
  (Outcome.returned (readSlot q.array q.front),
    { q with front := (q.front + 1) % (q.queueSize : Int), count := q.count - 1 })

/-- A state the queue of capacity `C` can be in: after a sequence of calls on a fresh
queue, followed by steps of other threads during a wait. -/
def Queue.reached {T : Type} (C : Nat) (calls : List (Call T)) (env : List (EnvStep T)) :
    Queue T :=
  ((Queue.new C : Queue T).run calls).2.interfere env

/-! ## What the calls print -/

/-- One line written to `std::cout` by a member function. -/
inductive Printed (T : Type) where
  /-- Line `Push(element)` of `Push` (lines 62-63). -/
  | push (element : T)
  /-- Line `Element x dropped` of `Push` on a full queue (lines 67-68). -/
  | dropped (element : Option T)
  /-- Line `Pop() -> element` of `Pop` and `PopWithTimeout` (lines 90-91, 118-119). -/
  | pop (element : Option T)
deriving DecidableEq, Repr

/-- Lines printed by `Push(element)` called in state `q`. -/
def Queue.Push.printed {T : Type} (q : Queue T) (element : T) : List (Printed T) :=
  Printed.push element ::
    (if q.count = (q.queueSize : Int) then [Printed.dropped (readSlot q.array q.front)]
     else [])

/-- Lines printed by the dequeue of another thread, which happens when `count != 0`. -/
def Queue.removeFront.printed {T : Type} (q : Queue T) : List (Printed T) :=
  if q.count ≠ 0 then [Printed.pop (readSlot q.array q.front)] else []

/-- Lines printed by the steps of other threads during one wait. -/
def Queue.interfere.printed {T : Type} : Queue T → List (EnvStep T) → List (Printed T)
  | _, [] => []
  | q, EnvStep.push e :: rest =>
    Queue.Push.printed q e ++ Queue.interfere.printed (q.Push e) rest
  | q, EnvStep.pop :: rest =>
    Queue.removeFront.printed q ++ Queue.interfere.printed q.removeFront rest

/-- Lines printed during a call of `Pop`, by the caller and by other threads. -/
def Queue.Pop.printed {T : Type} : Queue T → List (List (EnvStep T)) → List (Printed T)
  | q, [] => if q.count ≠ 0 then [Printed.pop (readSlot q.array q.front)] else []
  | q, w :: ws =>
    if q.count ≠ 0 then [Printed.pop (readSlot q.array q.front)]
    else Queue.interfere.printed q w ++ Queue.Pop.printed (q.interfere w) ws

/-- Lines printed during the loop and dequeue of `PopWithTimeout`. -/
def Queue.PopWithTimeout.loop.printed {T : Type} (thresholdTime : Int) :
    Queue T → List (Int → WaitReturn T) → List (Printed T)
  | q, [] => if q.count = 0 then [] else [Printed.pop (readSlot q.array q.front)]
  | q, w :: ws =>
    if q.count = 0 then
      let res := w thresholdTime
      let q1 := q.interfere res.env
      if res.status = cv_status.timeout then Queue.interfere.printed q res.env
      else Queue.interfere.printed q res.env
        ++ Queue.PopWithTimeout.loop.printed thresholdTime q1 ws
    else [Printed.pop (readSlot q.array q.front)]

/-- Lines printed during a sequence of calls. -/
def Queue.run.printed {T : Type} : Queue T → List (Call T) → List (Printed T)
  | _, [] => []
  | q, Call.Push e :: cs => Queue.Push.printed q e ++ Queue.run.printed (q.Push e) cs
  | q, Call.Pop wakes :: cs =>
    Queue.Pop.printed q wakes ++ Queue.run.printed (q.Pop wakes).2 cs
  | q, Call.PopWithTimeout now ms waits :: cs =>
    Queue.PopWithTimeout.loop.printed (now + ms) q waits
      ++ Queue.run.printed (q.PopWithTimeout now ms waits).2 cs

/-- Arguments of the `Push` calls in a list of printed lines, in order. -/
def Printed.pushed {T : Type} : List (Printed T) → List T
  | [] => []
  | Printed.push e :: rest => e :: Printed.pushed rest
  | _ :: rest => Printed.pushed rest

/-- Elements reported as dropped, in order. -/
def Printed.evicted {T : Type} : List (Printed T) → List (Option T)
  | [] => []
  | Printed.dropped x :: rest => x :: Printed.evicted rest
  | _ :: rest => Printed.evicted rest

/-- Elements returned by successful pops, in order. -/
def Printed.popped {T : Type} : List (Printed T) → List (Option T)
  | [] => []
  | Printed.pop x :: rest => x :: Printed.popped rest
  | _ :: rest => Printed.popped rest

/-- Elements returned by the calls of a sequence, in order. -/
def Outcome.values {α : Type} : List (Outcome α) → List α
  | [] => []
  | Outcome.returned x :: rest => x :: Outcome.values rest
  | _ :: rest => Outcome.values rest

/-- Change of `count` made by the steps that printed the lines. -/
def Printed.net {T : Type} (lines : List (Printed T)) : Int :=
  ((Printed.pushed lines).length : Int) - ((Printed.evicted lines).length : Int)
    - ((Printed.popped lines).length : Int)

/-- First-in-first-out discipline of printed lines: starting with the live elements
`l`, a push line appends its argument, and a dropped or pop line reports the first
live element and removes it; `l1` is what is live after the last line. -/
def Printed.Fifo {T : Type} : List T → List (Printed T) → List T → Prop
  | l, [], l1 => l = l1
  | l, Printed.push e :: rest, l1 => Printed.Fifo (l ++ [e]) rest l1
  | l, Printed.dropped x :: rest, l1 => ∃ a r, l = a :: r ∧ x = some a ∧ Printed.Fifo r rest l1
  | l, Printed.pop x :: rest, l1 => ∃ a r, l = a :: r ∧ x = some a ∧ Printed.Fifo r rest l1

/-! ## The same member functions in 32-bit arithmetic

`front`, `rear`, `count` are `int` (32 bits, two's complement) and `queueSize` is
`unsigned` (32 bits).  In `count == queueSize` and in `(front + 1) % queueSize` the
`int` operand is converted to `unsigned`, and the `unsigned` result of `%` is converted
back to `int` by the assignment. -/

/-- Value kept by an `int` for the mathematical result `x`: reduction modulo `2^32`
into `[-2^31, 2^31)`. -/
def toInt32 (x : Int) : Int := (x + 2147483648) % 4294967296 - 2147483648

/-- Conversion of an `int` to `unsigned`: reduction modulo `2^32` into `[0, 2^32)`. -/
def toUInt32 (x : Int) : Nat := (x % 4294967296).toNat

/-- The mathematical result `x` of an `int` operation is representable, that is, the
operation does not overflow. -/
def fitsInt32 (x : Int) : Prop := -2147483648 ≤ x ∧ x ≤ 2147483647

/-- Expression `a % queueSize` for an `int` expression of mathematical value `a`,
assigned to an `int`. -/
def remU32 (a : Int) (queueSize : Nat) : Int :=
  toInt32 ((toUInt32 (toInt32 a) % queueSize : Nat) : Int)

/-- Constructor in 32-bit arithmetic; `size - 1` is computed in `unsigned`. -/
def Queue.new32 {T : Type} (size : Nat) : Queue T :=
  { queueSize := size
    front := 0
    count := 0
    rear := toInt32 ((toUInt32 ((size : Int) - 1) : Nat) : Int)
    array := List.replicate size none }

/-- `Push` in 32-bit arithmetic. -/
def Queue.Push32 {T : Type} (q : Queue T) (element : T) : Queue T :=
  let q1 : Queue T :=
    if toUInt32 q.count = q.queueSize then
      { q with front := remU32 (q.front + 1) q.queueSize, count := toInt32 (q.count - 1) }
    else q
  let rear1 : Int := remU32 (q1.rear + 1) q1.queueSize
  { q1 with rear := rear1, array := writeSlot q1.array rear1 element,
            count := toInt32 (q1.count + 1) }

/-- Dequeue of another thread in 32-bit arithmetic. -/
def Queue.removeFront32 {T : Type} (q : Queue T) : Queue T :=
  if q.count ≠ 0 then
    { q with front := remU32 (q.front + 1) q.queueSize, count := toInt32 (q.count - 1) }
  else q

/-- Steps of other threads in 32-bit arithmetic. -/
def Queue.interfere32 {T : Type} : Queue T → List (EnvStep T) → Queue T
  | q, [] => q
  | q, EnvStep.push e :: rest => Queue.interfere32 (q.Push32 e) rest
  | q, EnvStep.pop :: rest => Queue.interfere32 q.removeFront32 rest

/-- `Pop` in 32-bit arithmetic. -/
def Queue.Pop32 {T : Type} : Queue T → List (List (EnvStep T)) → Outcome (Option T) × Queue T
  | q, [] =>
    if q.count ≠ 0 then
      (Outcome.returned (readSlot q.array q.front),
        { q with front := remU32 (q.front + 1) q.queueSize, count := toInt32 (q.count - 1) })
    else (Outcome.blocked, q)
  | q, w :: ws =>
    if q.count ≠ 0 then
      (Outcome.returned (readSlot q.array q.front),
        { q with front := remU32 (q.front + 1) q.queueSize, count := toInt32 (q.count - 1) })
    else Queue.Pop32 (q.interfere32 w) ws

/-- Loop and dequeue of `PopWithTimeout` in 32-bit arithmetic. -/
def Queue.PopWithTimeout32.loop {T : Type} (thresholdTime : Int) :
    Queue T → List (Int → WaitReturn T) → Outcome (Option T) × Queue T
  | q, [] =>
    if q.count = 0 then (Outcome.blocked, q)
    else
      (Outcome.returned (readSlot q.array q.front),
        { q with front := remU32 (q.front + 1) q.queueSize, count := toInt32 (q.count - 1) })
  | q, w :: ws =>
    if q.count = 0 then
      let res := w thresholdTime
      let q1 := q.interfere32 res.env
      if res.status = cv_status.timeout then
        (Outcome.threw "Can't pop because the queue is already empty.", q1)
      else Queue.PopWithTimeout32.loop thresholdTime q1 ws
    else
      (Outcome.returned (readSlot q.array q.front),
        { q with front := remU32 (q.front + 1) q.queueSize, count := toInt32 (q.count - 1) })

/-- `PopWithTimeout` in 32-bit arithmetic (the deadline is a `time_point`, not an `int`). -/
def Queue.PopWithTimeout32 {T : Type} (q : Queue T) (now milliseconds : Int)
    (waits : List (Int → WaitReturn T)) : Outcome (Option T) × Queue T :=
  let thresholdTime := now + milliseconds
  Queue.PopWithTimeout32.loop thresholdTime q waits

/-- Run of a sequence of calls in 32-bit arithmetic. -/
def Queue.run32 {T : Type} : Queue T → List (Call T) → List (Outcome (Option T)) × Queue T
  | q, [] => ([], q)
  | q, Call.Push e :: cs => Queue.run32 (q.Push32 e) cs
  | q, Call.Pop wakes :: cs =>
    let r := q.Pop32 wakes
    let rest := Queue.run32 r.2 cs
    (r.1 :: rest.1, rest.2)
  | q, Call.PopWithTimeout now ms waits :: cs =>
    let r := q.PopWithTimeout32 now ms waits
    let rest := Queue.run32 r.2 cs
    (r.1 :: rest.1, rest.2)

/-- A state reached in 32-bit arithmetic: after a sequence of calls on a fresh queue,
followed by steps of other threads during a wait. -/
def Queue.reached32 {T : Type} (C : Nat) (calls : List (Call T)) (env : List (EnvStep T)) :
    Queue T :=
  ((Queue.new32 C : Queue T).run32 calls).2.interfere32 env

/-- The 32-bit fields of `q` hold, as `int`, the natural numbers `f` (front), `c`
(count) and `r` (rear), and the capacity is `C`. -/
def Queue.Holds32 {T : Type} (q : Queue T) (C f c r : Nat) : Prop :=
  q.queueSize = C ∧ q.front = toInt32 (f : Int) ∧ q.count = toInt32 (c : Int) ∧
    q.rear = toInt32 (r : Int)

/-! ## What the calls print, in 32-bit arithmetic -/

/-- Lines printed by `Push(element)` in 32-bit arithmetic. -/
def Queue.Push32.printed {T : Type} (q : Queue T) (element : T) : List (Printed T) :=
  Printed.push element ::
    (if toUInt32 q.count = q.queueSize then [Printed.dropped (readSlot q.array q.front)]
     else [])

/-- Lines printed by the steps of other threads during one wait, in 32-bit arithmetic. -/
def Queue.interfere32.printed {T : Type} : Queue T → List (EnvStep T) → List (Printed T)
  | _, [] => []
  | q, EnvStep.push e :: rest =>
    Queue.Push32.printed q e ++ Queue.interfere32.printed (q.Push32 e) rest
  | q, EnvStep.pop :: rest =>
    Queue.removeFront.printed q ++ Queue.interfere32.printed q.removeFront32 rest

/-- Lines printed during a call of `Pop`, in 32-bit arithmetic. -/
def Queue.Pop32.printed {T : Type} : Queue T → List (List (EnvStep T)) → List (Printed T)
  | q, [] => if q.count ≠ 0 then [Printed.pop (readSlot q.array q.front)] else []
  | q, w :: ws =>
    if q.count ≠ 0 then [Printed.pop (readSlot q.array q.front)]
    else Queue.interfere32.printed q w ++ Queue.Pop32.printed (q.interfere32 w) ws

/-- Lines printed during the loop and dequeue of `PopWithTimeout`, in 32-bit arithmetic. -/
def Queue.PopWithTimeout32.loop.printed {T : Type} (thresholdTime : Int) :
    Queue T → List (Int → WaitReturn T) → List (Printed T)
  | q, [] => if q.count = 0 then [] else [Printed.pop (readSlot q.array q.front)]
  | q, w :: ws =>
    if q.count = 0 then
      let res := w thresholdTime
      let q1 := q.interfere32 res.env
      if res.status = cv_status.timeout then Queue.interfere32.printed q res.env
      else Queue.interfere32.printed q res.env
        ++ Queue.PopWithTimeout32.loop.printed thresholdTime q1 ws
    else [Printed.pop (readSlot q.array q.front)]

/-- Lines printed during a sequence of calls, in 32-bit arithmetic. -/
def Queue.run32.printed {T : Type} : Queue T → List (Call T) → List (Printed T)
  | _, [] => []
  | q, Call.Push e :: cs => Queue.Push32.printed q e ++ Queue.run32.printed (q.Push32 e) cs
  | q, Call.Pop wakes :: cs =>
    Queue.Pop32.printed q wakes ++ Queue.run32.printed (q.Pop32 wakes).2 cs
  | q, Call.PopWithTimeout now ms waits :: cs =>
    Queue.PopWithTimeout32.loop.printed (now + ms) q waits
      ++ Queue.run32.printed (q.PopWithTimeout32 now ms waits).2 cs

/-! ## Construction with its allocation -/

/-- How the constructor ends. -/
inductive Constructed (T : Type) where
  /-- The constructor returned: a queue object exists. -/
  | queue (q : Queue T)
  /-- The allocation `new T[queueSize]` (line 54) threw `std::bad_alloc`. -/
  | bad_alloc
deriving DecidableEq, Repr

/-- Constructor `Queue(unsigned size)` (lines 50-55) together with the only statement
of it that can throw, `new T[queueSize]`; `allocated` tells whether the allocator
provides the block.  The body has no other `throw` and no test of `size`. -/
def Queue.construct {T : Type} (size : Nat) (allocated : Bool) : Constructed T :=
  if allocated then Constructed.queue (Queue.new32 size) else Constructed.bad_alloc

/-! ## Arithmetic of the cursors -/

theorem emod_small (x C : Int) (h0 : 0 ≤ x) (h1 : x < 2 * C) :
    x % C = if x < C then x else x - C := by
  split
  · exact Int.emod_eq_of_lt h0 (by assumption)
  · have h : x = (x - C) + C := by ring
    rw [h, Int.add_emod_self, Int.emod_eq_of_lt (by omega) (by omega)]
    ring_nf

theorem emod_range (x C : Int) (hC : 0 < C) : 0 ≤ x % C ∧ x % C < C :=
  ⟨Int.emod_nonneg x (by omega), Int.emod_lt_of_pos x hC⟩

/-! ## The invariant is established by the constructor and kept by every step -/

theorem Queue.WF_new {T : Type} (C : Nat) (hC : 0 < C) : (Queue.new C : Queue T).WF := by
  have hC1 : (0 : Int) < (C : Int) := by exact_mod_cast hC
  refine ⟨hC, ?_, ?_, ?_, ?_, ?_, ?_, ?_, ?_⟩ <;> simp [Queue.new] <;> omega

theorem Queue.removeFront_queueSize {T : Type} (q : Queue T) :
    q.removeFront.queueSize = q.queueSize := by
  unfold Queue.removeFront; split <;> rfl

theorem Queue.Push_queueSize {T : Type} (q : Queue T) (e : T) :
    (q.Push e).queueSize = q.queueSize := by
  unfold Queue.Push; simp only []; split <;> rfl

theorem Queue.WF_removeFront {T : Type} (q : Queue T) (h : q.WF) : q.removeFront.WF := by
  unfold Queue.removeFront
  split
  · rename_i hc
    have hC : (0 : Int) < (q.queueSize : Int) := by exact_mod_cast h.size_pos
    have hf := emod_range (q.front + 1) q.queueSize hC
    have h1 := h.count_lo
    have h2 := h.count_hi
    refine ⟨h.size_pos, h.array_len, hf.1, hf.2, h.rear_lo, h.rear_hi, ?_, ?_, ?_⟩
    · show 0 ≤ q.count - 1
      omega
    · show q.count - 1 ≤ (q.queueSize : Int)
      omega
    · show (q.rear + 1) % (q.queueSize : Int)
        = ((q.front + 1) % (q.queueSize : Int) + (q.count - 1)) % (q.queueSize : Int)
      rw [Int.emod_add_emod, h.next_write]
      congr 1
      ring
  · exact h

theorem Queue.Push_full {T : Type} (q : Queue T) (e : T) (hC : 0 < q.queueSize)
    (h : q.count = (q.queueSize : Int)) : q.Push e = q.removeFront.Push e := by
  have hC1 : (0 : Int) < (q.queueSize : Int) := by exact_mod_cast hC
  have hne : q.count ≠ 0 := by omega
  have hne2 : ¬ (q.count - 1 = (q.queueSize : Int)) := by omega
  have hrf : q.removeFront
      = { q with front := (q.front + 1) % (q.queueSize : Int), count := q.count - 1 } := by
    unfold Queue.removeFront
    rw [if_pos hne]
  rw [hrf]
  simp only [Queue.Push]
  rw [if_pos h, if_neg hne2]
  
theorem Queue.WF_Push_notFull {T : Type} (q : Queue T) (e : T) (h : q.WF)
    (hc : q.count ≠ (q.queueSize : Int)) : (q.Push e).WF := by
  have hC : (0 : Int) < (q.queueSize : Int) := by exact_mod_cast h.size_pos
  have hr := emod_range (q.rear + 1) q.queueSize hC
  have h1 := h.count_lo
  have h2 := h.count_hi
  simp only [Queue.Push, if_neg hc]
  refine ⟨h.size_pos, ?_, h.front_lo, h.front_hi, hr.1, hr.2, ?_, ?_, ?_⟩
  · show (writeSlot q.array ((q.rear + 1) % (q.queueSize : Int)) e).length = q.queueSize
    unfold writeSlot
    split <;> simp [h.array_len]
  · show 0 ≤ q.count + 1
    omega
  · show q.count + 1 ≤ (q.queueSize : Int)
    omega
  · show ((q.rear + 1) % (q.queueSize : Int) + 1) % (q.queueSize : Int)
      = (q.front + (q.count + 1)) % (q.queueSize : Int)
    rw [h.next_write, Int.emod_add_emod]
    congr 1
    ring

theorem Queue.WF_Push {T : Type} (q : Queue T) (e : T) (h : q.WF) : (q.Push e).WF := by
  by_cases hc : q.count = (q.queueSize : Int)
  · rw [Queue.Push_full q e h.size_pos hc]
    have hw := Queue.WF_removeFront q h
    apply Queue.WF_Push_notFull _ _ hw
    have hC : (0 : Int) < (q.queueSize : Int) := by exact_mod_cast h.size_pos
    have hne : q.count ≠ 0 := by omega
    simp [Queue.removeFront, hne]
    omega
  · exact Queue.WF_Push_notFull q e h hc


/-! ## Live contents -/

theorem readSlot_writeSlot_same {T : Type} (a : List (Option T)) (i : Int) (e : T)
    (h0 : 0 ≤ i) (h1 : i < (a.length : Int)) : readSlot (writeSlot a i e) i = some e := by
  have h2 : i.toNat < a.length := by omega
  simp [readSlot, writeSlot, h0, List.getD_eq_getElem?_getD, h2]

theorem readSlot_writeSlot_ne {T : Type} (a : List (Option T)) (i j : Int) (e : T)
    (h0 : 0 ≤ i) (hj : 0 ≤ j) (hne : i ≠ j) : readSlot (writeSlot a i e) j = readSlot a j := by
  have h2 : i.toNat ≠ j.toNat := by omega
  simp [readSlot, writeSlot, h0, hj, List.getD_eq_getElem?_getD, List.getElem?_set_ne h2]

theorem Queue.contents_length {T : Type} (q : Queue T) : q.contents.length = q.count.toNat := by
  simp [Queue.contents]

theorem Queue.contents_removeFront {T : Type} (q : Queue T) (h : q.WF) (hc : q.count ≠ 0) :
    q.contents = readSlot q.array q.front :: q.removeFront.contents := by
  have h1 := h.count_lo
  have hf0 := h.front_lo
  have hf1 := h.front_hi
  obtain ⟨n, hn⟩ : ∃ n : Nat, q.count.toNat = n + 1 := ⟨q.count.toNat - 1, by omega⟩
  have hn1 : (q.count - 1).toNat = n := by omega
  simp only [Queue.contents, Queue.removeFront, if_pos hc, hn, hn1]
  rw [List.range_succ_eq_map, List.map_cons, List.map_map]
  congr 1
  · simp [Int.emod_eq_of_lt hf0 hf1]
  · apply List.map_congr_left
    intro i _
    simp only [Function.comp]
    rw [Int.emod_add_emod]
    congr 2
    push_cast
    ring

theorem Queue.contents_Push_notFull {T : Type} (q : Queue T) (e : T) (h : q.WF)
    (hc : q.count ≠ (q.queueSize : Int)) : (q.Push e).contents = q.contents ++ [some e] := by
  have hC : (0 : Int) < (q.queueSize : Int) := by exact_mod_cast h.size_pos
  have h1 := h.count_lo
  have h2 := h.count_hi
  have hf0 := h.front_lo
  have hf1 := h.front_hi
  have hr := emod_range (q.rear + 1) q.queueSize hC
  have hlen : ((q.array.length : Nat) : Int) = (q.queueSize : Int) := by rw [h.array_len]
  have hn1 : (q.count + 1).toNat = q.count.toNat + 1 := by omega
  simp only [Queue.contents, Queue.Push, if_neg hc, hn1]
  rw [List.range_succ, List.map_append, List.map_singleton]
  congr 1
  · apply List.map_congr_left
    intro i hi
    rw [List.mem_range] at hi
    apply readSlot_writeSlot_ne _ _ _ _ hr.1 (emod_range _ _ hC).1
    rw [h.next_write, emod_small _ _ (by omega) (by omega),
      emod_small (q.front + (i : Int)) _ (by omega) (by omega)]
    split <;> split <;> omega
  · congr 1
    have hcn : ((q.count.toNat : Nat) : Int) = q.count := by omega
    rw [hcn, ← h.next_write]
    exact readSlot_writeSlot_same _ _ _ hr.1 (by omega)


/-! ## Simulation of the reference model -/

theorem Refines.count_eq {T : Type} {C : Nat} {q : Queue T} {l : List T}
    (h : Refines C q l) : q.count = (l.length : Int) := by
  have h1 := Queue.contents_length q
  rw [h.2.2, List.length_map] at h1
  have h2 := h.2.1.count_lo
  omega

theorem Refines_new {T : Type} (C : Nat) (hC : 0 < C) :
    Refines C (Queue.new C : Queue T) [] :=
  ⟨rfl, Queue.WF_new C hC, by simp [Queue.contents, Queue.new]⟩

theorem Refines_removeFront {T : Type} {C : Nat} {q : Queue T} {l : List T}
    (h : Refines C q l) : Refines C q.removeFront l.tail := by
  have hcnt := h.count_eq
  refine ⟨by rw [Queue.removeFront_queueSize]; exact h.1, Queue.WF_removeFront q h.2.1, ?_⟩
  cases l with
  | nil =>
    have h0 : q.count = 0 := by simpa using hcnt
    simp [Queue.removeFront, h0, Queue.contents]
  | cons a l =>
    have hne : q.count ≠ 0 := by
      simp only [List.length_cons] at hcnt
      omega
    have h1 := Queue.contents_removeFront q h.2.1 hne
    rw [h.2.2, List.map_cons] at h1
    simpa using (List.cons.inj h1).2.symm

theorem Refines_front {T : Type} {C : Nat} {q : Queue T} {a : T} {l : List T}
    (h : Refines C q (a :: l)) : q.count ≠ 0 ∧ readSlot q.array q.front = some a := by
  have hcnt := h.count_eq
  have hne : q.count ≠ 0 := by
    simp only [List.length_cons] at hcnt
    omega
  have h1 := Queue.contents_removeFront q h.2.1 hne
  rw [h.2.2, List.map_cons] at h1
  exact ⟨hne, (List.cons.inj h1).1.symm⟩

theorem Refines_Push {T : Type} {C : Nat} {q : Queue T} {l : List T}
    (h : Refines C q l) (e : T) : Refines C (q.Push e) (Ref.push C l e) := by
  have hcnt := h.count_eq
  have hsz := h.1
  refine ⟨by rw [Queue.Push_queueSize]; exact h.1, Queue.WF_Push q e h.2.1, ?_⟩
  by_cases hc : q.count = (q.queueSize : Int)
  · have hpos := h.2.1.size_pos
    have hr := Refines_removeFront h
    have hne : q.count ≠ 0 := by omega
    have hnf : q.removeFront.count ≠ (q.removeFront.queueSize : Int) := by
      simp [Queue.removeFront, hne]
      omega
    rw [Queue.Push_full q e hpos hc, Queue.contents_Push_notFull _ e hr.2.1 hnf, hr.2.2]
    have hlen : l.length = C := by omega
    cases l with
    | nil => simp at hlen; omega
    | cons a l =>
      simp only [List.length_cons] at hlen
      simp [Ref.push, ← hlen]
  · have hlt : l.length < C := by
      have := h.2.1.count_hi
      omega
    rw [Queue.contents_Push_notFull q e h.2.1 hc, h.2.2]
    have h0 : (l ++ [e]).length - C = 0 := by
      simp only [List.length_append, List.length_singleton]
      omega
    unfold Ref.push
    rw [h0]
    simp

theorem Refines_interfere {T : Type} {C : Nat} (env : List (EnvStep T)) :
    ∀ {q : Queue T} {l : List T}, Refines C q l →
      Refines C (q.interfere env) (Ref.interfere C l env) := by
  induction env with
  | nil => intro q l h; exact h
  | cons s rest ih =>
    intro q l h
    cases s with
    | push e => exact ih (Refines_Push h e)
    | pop => exact ih (Refines_removeFront h)

theorem Queue.removeFront_of_ne {T : Type} (q : Queue T) (hc : q.count ≠ 0) :
    ({ q with front := (q.front + 1) % (q.queueSize : Int), count := q.count - 1 } : Queue T)
      = q.removeFront := by
  unfold Queue.removeFront
  rw [if_pos hc]

theorem Refines_Pop {T : Type} {C : Nat} (wakes : List (List (EnvStep T))) :
    ∀ {q : Queue T} {l : List T}, Refines C q l →
      (q.Pop wakes).1 = (Ref.Pop C l wakes).1 ∧
      Refines C (q.Pop wakes).2 (Ref.Pop C l wakes).2 := by
  induction wakes with
  | nil =>
    intro q l h
    cases l with
    | nil =>
      have h0 : q.count = 0 := by simpa using h.count_eq
      simp only [Queue.Pop, Ref.Pop, h0]
      exact ⟨by simp, by simpa using h⟩
    | cons a l =>
      obtain ⟨hne, hrd⟩ := Refines_front h
      simp only [Queue.Pop, Ref.Pop, if_pos hne, hrd, Queue.removeFront_of_ne q hne]
      exact ⟨trivial, Refines_removeFront h⟩
  | cons w ws ih =>
    intro q l h
    cases l with
    | nil =>
      have h0 : q.count = 0 := by simpa using h.count_eq
      simp only [Queue.Pop, Ref.Pop, h0]
      simpa using ih (Refines_interfere w h)
    | cons a l =>
      obtain ⟨hne, hrd⟩ := Refines_front h
      simp only [Queue.Pop, Ref.Pop, if_pos hne, hrd, Queue.removeFront_of_ne q hne]
      exact ⟨trivial, Refines_removeFront h⟩

theorem Refines_PopWithTimeout_loop {T : Type} {C : Nat} (t : Int)
    (waits : List (Int → WaitReturn T)) :
    ∀ {q : Queue T} {l : List T}, Refines C q l →
      (Queue.PopWithTimeout.loop t q waits).1 = (Ref.PopWithTimeout C t l waits).1 ∧
      Refines C (Queue.PopWithTimeout.loop t q waits).2 (Ref.PopWithTimeout C t l waits).2 := by
  induction waits with
  | nil =>
    intro q l h
    cases l with
    | nil =>
      have h0 : q.count = 0 := by simpa using h.count_eq
      simp only [Queue.PopWithTimeout.loop, Ref.PopWithTimeout, h0]
      exact ⟨by simp, by simpa using h⟩
    | cons a l =>
      obtain ⟨hne, hrd⟩ := Refines_front h
      simp only [Queue.PopWithTimeout.loop, Ref.PopWithTimeout, if_neg hne, hrd,
        Queue.removeFront_of_ne q hne]
      exact ⟨trivial, Refines_removeFront h⟩
  | cons w ws ih =>
    intro q l h
    cases l with
    | nil =>
      have h0 : q.count = 0 := by simpa using h.count_eq
      simp only [Queue.PopWithTimeout.loop, Ref.PopWithTimeout, h0, if_true]
      by_cases hs : (w t).status = cv_status.timeout
      · simp only [if_pos hs]
        exact ⟨trivial, Refines_interfere _ h⟩
      · simp only [if_neg hs]
        exact ih (Refines_interfere _ h)
    | cons a l =>
      obtain ⟨hne, hrd⟩ := Refines_front h
      simp only [Queue.PopWithTimeout.loop, Ref.PopWithTimeout, if_neg hne, hrd,
        Queue.removeFront_of_ne q hne]
      exact ⟨trivial, Refines_removeFront h⟩

theorem Refines_run {T : Type} {C : Nat} (calls : List (Call T)) :
    ∀ {q : Queue T} {l : List T}, Refines C q l →
      (q.run calls).1 = (Ref.run C l calls).1 ∧
      Refines C (q.run calls).2 (Ref.run C l calls).2 := by
  induction calls with
  | nil => intro q l h; exact ⟨rfl, h⟩
  | cons c cs ih =>
    intro q l h
    cases c with
    | Push e => exact ih (Refines_Push h e)
    | Pop wakes =>
      obtain ⟨h1, h2⟩ := Refines_Pop wakes h
      obtain ⟨h3, h4⟩ := ih h2
      simp only [Queue.run, Ref.run]
      exact ⟨by rw [h1, h3], h4⟩
    | PopWithTimeout now ms waits =>
      obtain ⟨h1, h2⟩ := Refines_PopWithTimeout_loop (now + ms) waits h
      obtain ⟨h3, h4⟩ := ih h2
      simp only [Queue.run, Ref.run, Queue.PopWithTimeout]
      exact ⟨by rw [h1, h3], h4⟩


/-! ## The reference model on pushes followed by pops -/

theorem Ref.push_keepLast {T : Type} (C : Nat) (l : List T) (e : T) :
    Ref.push C (l.drop (l.length - C)) e = (l ++ [e]).drop ((l ++ [e]).length - C) := by
  unfold Ref.push
  by_cases h : l.length ≤ C
  · have h0 : l.length - C = 0 := by omega
    rw [h0, List.drop_zero]
  · have hd : (l.drop (l.length - C) ++ [e]).length - C = 1 := by
      simp only [List.length_append, List.length_drop, List.length_singleton]
      omega
    have hd2 : (l ++ [e]).length - C = (l.length - C) + 1 := by
      simp only [List.length_append, List.length_singleton]
      omega
    have hle : l.length - C ≤ l.length := by omega
    have e2 : (l ++ [e]).drop ((l.length - C) + 1) = (l.drop (l.length - C) ++ [e]).drop 1 := by
      rw [← List.drop_drop, List.drop_append_of_le_length hle]
    rw [hd, hd2, e2]

theorem Ref.foldl_push {T : Type} (C : Nat) (es : List T) :
    ∀ l : List T, es.foldl (Ref.push C) (l.drop (l.length - C))
      = (l ++ es).drop ((l ++ es).length - C) := by
  induction es with
  | nil => intro l; simp
  | cons e es ih =>
    intro l
    rw [List.foldl_cons, Ref.push_keepLast, ih (l ++ [e])]
    simp

theorem Ref.run_pushes {T : Type} (C : Nat) (es : List T) (cs : List (Call T)) :
    ∀ l : List T, Ref.run C l (es.map Call.Push ++ cs) = Ref.run C (es.foldl (Ref.push C) l) cs := by
  induction es with
  | nil => intro l; rfl
  | cons e es ih =>
    intro l
    simp only [List.map_cons, List.cons_append, Ref.run, List.foldl_cons]
    exact ih _

theorem Ref.run_pops {T : Type} (C : Nat) (n : Nat) :
    ∀ l : List T, n ≤ l.length →
      Ref.run C l (List.replicate n (Call.Pop []))
        = ((l.take n).map (fun e => Outcome.returned (some e)), l.drop n) := by
  induction n with
  | zero => intro l _; rfl
  | succ n ih =>
    intro l hn
    cases l with
    | nil => simp at hn
    | cons a l =>
      simp only [List.length_cons, Nat.add_le_add_iff_right] at hn
      simp only [List.replicate_succ, Ref.run, Ref.Pop, ih l hn, List.take_succ_cons,
        List.map_cons, List.drop_succ_cons]

/-- Pushing `es` on a fresh queue of capacity `C` and then popping `n` times, with `n`
at most the number of elements kept: the pops return the first `n` of the last `C`
pushed elements and the rest stays live. -/
theorem Queue.run_pushes_pops {T : Type} (C n : Nat) (es : List T) (hC : 0 < C)
    (hn : n ≤ (es.drop (es.length - C)).length) :
    ((Queue.new C : Queue T).run (es.map Call.Push ++ List.replicate n (Call.Pop []))).1
        = ((es.drop (es.length - C)).take n).map (fun e => Outcome.returned (some e)) ∧
    Refines C ((Queue.new C : Queue T).run
        (es.map Call.Push ++ List.replicate n (Call.Pop []))).2
      ((es.drop (es.length - C)).drop n) := by
  have h := Refines_run (es.map Call.Push ++ List.replicate n (Call.Pop []))
    (Refines_new (T := T) C hC)
  have hf := Ref.foldl_push C es ([] : List T)
  simp only [List.length_nil, List.drop_nil, List.nil_append] at hf
  rw [Ref.run_pushes, hf, Ref.run_pops C n _ hn] at h
  exact h


/-! ## Steps of other threads -/

theorem Queue.interfere_pops_of_empty {T : Type} (env : List (EnvStep T))
    (hnp : ∀ s ∈ env, s = EnvStep.pop) :
    ∀ q : Queue T, q.count = 0 → q.interfere env = q := by
  induction env with
  | nil => intro q _; rfl
  | cons s rest ih =>
    intro q h0
    have hs : s = EnvStep.pop := hnp s (List.mem_cons_self _ _)
    subst hs
    have hrf : q.removeFront = q := by simp [Queue.removeFront, h0]
    simp only [Queue.interfere, hrf]
    exact ih (fun s hs => hnp s (List.mem_cons_of_mem _ hs)) q h0

theorem Queue.foldl_interfere_pops {T : Type} (t : Int) (ws : List (Int → WaitReturn T))
    (hnp : ∀ w ∈ ws, ∀ s ∈ (w t).env, s = EnvStep.pop) :
    ∀ q : Queue T, q.count = 0 → ws.foldl (fun s w => s.interfere (w t).env) q = q := by
  induction ws with
  | nil => intro q _; rfl
  | cons w ws ih =>
    intro q h0
    rw [List.foldl_cons,
      Queue.interfere_pops_of_empty _ (hnp w (List.mem_cons_self _ _)) q h0]
    exact ih (fun w hw => hnp w (List.mem_cons_of_mem _ hw)) q h0

theorem Queue.PopWithTimeout.loop_threw {T : Type} (t : Int) (what : String)
    (waits : List (Int → WaitReturn T)) :
    ∀ q : Queue T, (Queue.PopWithTimeout.loop t q waits).1 = Outcome.threw what →
      q.count = 0 ∧ ∃ n, n ≤ waits.length ∧
        (Queue.PopWithTimeout.loop t q waits).2
          = (waits.take n).foldl (fun s w => s.interfere (w t).env) q := by
  induction waits with
  | nil =>
    intro q h
    simp only [Queue.PopWithTimeout.loop] at h
    split at h <;> simp at h
  | cons w ws ih =>
    intro q h
    by_cases h0 : q.count = 0
    · refine ⟨h0, ?_⟩
      simp only [Queue.PopWithTimeout.loop, if_pos h0] at h ⊢
      by_cases hs : (w t).status = cv_status.timeout
      · simp only [if_pos hs]
        exact ⟨1, by simp, by simp⟩
      · simp only [if_neg hs] at h ⊢
        obtain ⟨_, n, hn, hst⟩ := ih _ h
        exact ⟨n + 1, by simpa using hn, by rw [hst]; simp⟩
    · simp [Queue.PopWithTimeout.loop, h0] at h


/-! ## Waits -/

theorem Queue.Pop_returned {T : Type} (wakes : List (List (EnvStep T))) :
    ∀ (q : Queue T) (x : Option T), (q.Pop wakes).1 = Outcome.returned x →
      ∃ n, n ≤ wakes.length ∧ ((wakes.take n).foldl Queue.interfere q).count ≠ 0 ∧
        q.Pop wakes = ((wakes.take n).foldl Queue.interfere q).dequeue := by
  induction wakes with
  | nil =>
    intro q x h
    by_cases h0 : q.count ≠ 0
    · exact ⟨0, by simp, by simpa using h0, by simp [Queue.Pop, Queue.dequeue, h0]⟩
    · simp [Queue.Pop, h0] at h
  | cons w ws ih =>
    intro q x h
    by_cases h0 : q.count ≠ 0
    · exact ⟨0, by simp, by simpa using h0, by simp [Queue.Pop, Queue.dequeue, h0]⟩
    · simp only [Queue.Pop, if_neg h0] at h ⊢
      obtain ⟨n, hn, hc, he⟩ := ih _ x h
      exact ⟨n + 1, by simpa using hn, by simpa using hc, by simpa using he⟩

theorem Queue.Pop_blocked {T : Type} (wakes : List (List (EnvStep T))) :
    ∀ q : Queue T, (q.Pop wakes).1 = Outcome.blocked → (q.Pop wakes).2.count = 0 := by
  induction wakes with
  | nil =>
    intro q h
    by_cases h0 : q.count ≠ 0
    · simp [Queue.Pop, h0] at h
    · have h1 : q.count = 0 := by simpa using h0
      simp [Queue.Pop, h1]
  | cons w ws ih =>
    intro q h
    by_cases h0 : q.count ≠ 0
    · simp [Queue.Pop, h0] at h
    · simp only [Queue.Pop, if_neg h0] at h ⊢
      exact ih _ h

theorem Queue.PopWithTimeout.loop_returned {T : Type} (t : Int)
    (waits : List (Int → WaitReturn T)) :
    ∀ (q : Queue T) (x : Option T),
      (Queue.PopWithTimeout.loop t q waits).1 = Outcome.returned x →
      ∃ n, n ≤ waits.length ∧
        ((waits.take n).foldl (fun s w => s.interfere (w t).env) q).count ≠ 0 ∧
        Queue.PopWithTimeout.loop t q waits
          = ((waits.take n).foldl (fun s w => s.interfere (w t).env) q).dequeue := by
  induction waits with
  | nil =>
    intro q x h
    by_cases h0 : q.count = 0
    · simp [Queue.PopWithTimeout.loop, h0] at h
    · exact ⟨0, by simp, by simpa using h0, by simp [Queue.PopWithTimeout.loop, Queue.dequeue, h0]⟩
  | cons w ws ih =>
    intro q x h
    by_cases h0 : q.count = 0
    · simp only [Queue.PopWithTimeout.loop, if_pos h0] at h ⊢
      by_cases hs : (w t).status = cv_status.timeout
      · simp [hs] at h
      · simp only [if_neg hs] at h ⊢
        obtain ⟨n, hn, hc, he⟩ := ih _ x h
        exact ⟨n + 1, by simpa using hn, by simpa using hc, by simpa using he⟩
    · exact ⟨0, by simp, by simpa using h0, by simp [Queue.PopWithTimeout.loop, Queue.dequeue, h0]⟩

theorem Queue.PopWithTimeout.loop_blocked {T : Type} (t : Int)
    (waits : List (Int → WaitReturn T)) :
    ∀ q : Queue T, (Queue.PopWithTimeout.loop t q waits).1 = Outcome.blocked →
      (Queue.PopWithTimeout.loop t q waits).2.count = 0 := by
  induction waits with
  | nil =>
    intro q h
    by_cases h0 : q.count = 0
    · simp [Queue.PopWithTimeout.loop, h0]
    · simp [Queue.PopWithTimeout.loop, h0] at h
  | cons w ws ih =>
    intro q h
    by_cases h0 : q.count = 0
    · simp only [Queue.PopWithTimeout.loop, if_pos h0] at h ⊢
      by_cases hs : (w t).status = cv_status.timeout
      · simp [hs] at h
      · simp only [if_neg hs] at h ⊢
        exact ih _ h
    · simp [Queue.PopWithTimeout.loop, h0] at h

theorem Queue.PopWithTimeout.loop_congr {T : Type} (t : Int)
    (waits waits1 : List (Int → WaitReturn T))
    (h : List.Forall₂ (fun w w1 => w t = w1 t) waits waits1) :
    ∀ q : Queue T, Queue.PopWithTimeout.loop t q waits = Queue.PopWithTimeout.loop t q waits1 := by
  induction h with
  | nil => intro q; rfl
  | cons hw _ ih =>
    intro q
    simp only [Queue.PopWithTimeout.loop, hw, ih]

theorem Queue.WF_reached {T : Type} (C : Nat) (hC : 0 < C) (calls : List (Call T))
    (env : List (EnvStep T)) :
    (Queue.reached C calls env).queueSize = C ∧ (Queue.reached C calls env).WF := by
  have h := Refines_interfere env (Refines_run calls (Refines_new (T := T) C hC)).2
  exact ⟨h.1, h.2.1⟩


/-! ## Counting the printed lines -/

theorem Printed.pushed_append {T : Type} (a b : List (Printed T)) :
    Printed.pushed (a ++ b) = Printed.pushed a ++ Printed.pushed b := by
  induction a with
  | nil => rfl
  | cons x a ih => cases x <;> simp [Printed.pushed, ih]

theorem Printed.evicted_append {T : Type} (a b : List (Printed T)) :
    Printed.evicted (a ++ b) = Printed.evicted a ++ Printed.evicted b := by
  induction a with
  | nil => rfl
  | cons x a ih => cases x <;> simp [Printed.evicted, ih]

theorem Printed.popped_append {T : Type} (a b : List (Printed T)) :
    Printed.popped (a ++ b) = Printed.popped a ++ Printed.popped b := by
  induction a with
  | nil => rfl
  | cons x a ih => cases x <;> simp [Printed.popped, ih]

theorem Printed.net_append {T : Type} (a b : List (Printed T)) :
    Printed.net (a ++ b) = Printed.net a + Printed.net b := by
  simp only [Printed.net, Printed.pushed_append, Printed.evicted_append,
    Printed.popped_append, List.length_append]
  push_cast
  ring

theorem Queue.Push_count_net {T : Type} (q : Queue T) (e : T) :
    (q.Push e).count = q.count + Printed.net (Queue.Push.printed q e) := by
  unfold Queue.Push Queue.Push.printed
  simp only []
  split <;> simp [Printed.net, Printed.pushed, Printed.evicted, Printed.popped]

theorem Queue.removeFront_count_net {T : Type} (q : Queue T) :
    q.removeFront.count = q.count + Printed.net (Queue.removeFront.printed q) := by
  unfold Queue.removeFront Queue.removeFront.printed
  split <;> simp [Printed.net, Printed.pushed, Printed.evicted, Printed.popped]
  omega

theorem Queue.interfere_count_net {T : Type} (env : List (EnvStep T)) :
    ∀ q : Queue T,
      (q.interfere env).count = q.count + Printed.net (Queue.interfere.printed q env) := by
  induction env with
  | nil => intro q; simp [Queue.interfere, Queue.interfere.printed, Printed.net,
      Printed.pushed, Printed.evicted, Printed.popped]
  | cons s rest ih =>
    intro q
    cases s with
    | push e =>
      simp only [Queue.interfere, Queue.interfere.printed, Printed.net_append, ih,
        Queue.Push_count_net]
      omega
    | pop =>
      simp only [Queue.interfere, Queue.interfere.printed, Printed.net_append, ih,
        Queue.removeFront_count_net]
      omega

theorem Queue.Pop_count_net {T : Type} (wakes : List (List (EnvStep T))) :
    ∀ q : Queue T,
      (q.Pop wakes).2.count = q.count + Printed.net (Queue.Pop.printed q wakes) := by
  induction wakes with
  | nil =>
    intro q
    unfold Queue.Pop Queue.Pop.printed
    split <;> simp [Printed.net, Printed.pushed, Printed.evicted, Printed.popped]
    omega
  | cons w ws ih =>
    intro q
    unfold Queue.Pop Queue.Pop.printed
    split
    · simp [Printed.net, Printed.pushed, Printed.evicted, Printed.popped]
      omega
    · rw [ih, Printed.net_append, Queue.interfere_count_net]
      omega

theorem Queue.PopWithTimeout.loop_count_net {T : Type} (t : Int)
    (waits : List (Int → WaitReturn T)) :
    ∀ q : Queue T,
      (Queue.PopWithTimeout.loop t q waits).2.count
        = q.count + Printed.net (Queue.PopWithTimeout.loop.printed t q waits) := by
  induction waits with
  | nil =>
    intro q
    unfold Queue.PopWithTimeout.loop Queue.PopWithTimeout.loop.printed
    split <;> simp [Printed.net, Printed.pushed, Printed.evicted, Printed.popped]
    omega
  | cons w ws ih =>
    intro q
    unfold Queue.PopWithTimeout.loop Queue.PopWithTimeout.loop.printed
    split
    · simp only []
      split
      · exact Queue.interfere_count_net _ q
      · rw [ih, Printed.net_append, Queue.interfere_count_net]
        omega
    · simp [Printed.net, Printed.pushed, Printed.evicted, Printed.popped]
      omega

theorem Queue.run_count_net {T : Type} (calls : List (Call T)) :
    ∀ q : Queue T,
      (q.run calls).2.count = q.count + Printed.net (Queue.run.printed q calls) := by
  induction calls with
  | nil => intro q; simp [Queue.run, Queue.run.printed, Printed.net, Printed.pushed,
      Printed.evicted, Printed.popped]
  | cons c cs ih =>
    intro q
    cases c with
    | Push e =>
      simp only [Queue.run, Queue.run.printed, Printed.net_append, ih, Queue.Push_count_net]
      omega
    | Pop wakes =>
      simp only [Queue.run, Queue.run.printed, Printed.net_append, ih, Queue.Pop_count_net]
      omega
    | PopWithTimeout now ms waits =>
      simp only [Queue.run, Queue.run.printed, Printed.net_append, ih, Queue.PopWithTimeout,
        Queue.PopWithTimeout.loop_count_net]
      omega


/-! ## The printed lines follow the first-in-first-out discipline -/

theorem Printed.Fifo_append {T : Type} (L1 L2 : List (Printed T)) :
    ∀ (l m l1 : List T), Printed.Fifo l L1 m → Printed.Fifo m L2 l1 →
      Printed.Fifo l (L1 ++ L2) l1 := by
  induction L1 with
  | nil =>
    intro l m l1 h1 h2
    simp only [Printed.Fifo] at h1
    subst h1
    exact h2
  | cons y L1 ih =>
    intro l m l1 h1 h2
    cases y with
    | push e => exact ih _ _ _ h1 h2
    | dropped x =>
      obtain ⟨a, r, hl, hx, hr⟩ := h1
      exact ⟨a, r, hl, hx, ih _ _ _ hr h2⟩
    | pop x =>
      obtain ⟨a, r, hl, hx, hr⟩ := h1
      exact ⟨a, r, hl, hx, ih _ _ _ hr h2⟩

theorem Printed.Fifo_popped_sublist {T : Type} (L : List (Printed T)) :
    ∀ (l l1 : List T), Printed.Fifo l L l1 →
      List.Sublist (Printed.popped L) ((l ++ Printed.pushed L).map some) := by
  induction L with
  | nil => intro l l1 _; exact List.nil_sublist _
  | cons y L ih =>
    intro l l1 h
    cases y with
    | push e =>
      have h1 := ih _ _ h
      simpa [Printed.popped, Printed.pushed] using h1
    | dropped x =>
      obtain ⟨a, r, hl, _, hr⟩ := h
      subst hl
      have h1 := ih _ _ hr
      simpa [Printed.popped, Printed.pushed] using List.Sublist.cons (some a) h1
    | pop x =>
      obtain ⟨a, r, hl, hx, hr⟩ := h
      subst hl hx
      have h1 := ih _ _ hr
      simpa [Printed.popped, Printed.pushed] using List.Sublist.cons₂ (some a) h1

theorem Printed.Fifo_pop_pushed_before {T : Type} (L : List (Printed T)) :
    ∀ (l l1 : List T), Printed.Fifo l L l1 →
      ∀ (L1 : List (Printed T)) (x : Option T) (L2 : List (Printed T)),
        L = L1 ++ Printed.pop x :: L2 →
        ∃ e, x = some e ∧ (e ∈ l ∨ Printed.push e ∈ L1) := by
  induction L with
  | nil =>
    intro l l1 _ L1 x L2 hL
    simp at hL
  | cons y L ih =>
    intro l l1 h L1 x L2 hL
    cases L1 with
    | nil =>
      simp only [List.nil_append, List.cons.injEq] at hL
      obtain ⟨hy, _⟩ := hL
      subst hy
      obtain ⟨a, r, hl, hx, _⟩ := h
      exact ⟨a, hx, Or.inl (by simp [hl])⟩
    | cons z L1 =>
      simp only [List.cons_append, List.cons.injEq] at hL
      obtain ⟨hy, hrest⟩ := hL
      subst hy
      cases y with
      | push e1 =>
        obtain ⟨e, hx, hmem⟩ := ih _ _ h L1 x L2 hrest
        refine ⟨e, hx, ?_⟩
        rcases hmem with hmem | hmem
        · rcases List.mem_append.mp hmem with h1 | h1
          · exact Or.inl h1
          · have : e = e1 := by simpa using h1
            subst this
            exact Or.inr (List.mem_cons_self _ _)
        · exact Or.inr (List.mem_cons_of_mem _ hmem)
      | dropped x1 =>
        obtain ⟨a, r, hl, _, hr⟩ := h
        obtain ⟨e, hx, hmem⟩ := ih _ _ hr L1 x L2 hrest
        refine ⟨e, hx, ?_⟩
        rcases hmem with hmem | hmem
        · exact Or.inl (by rw [hl]; exact List.mem_cons_of_mem _ hmem)
        · exact Or.inr (List.mem_cons_of_mem _ hmem)
      | pop x1 =>
        obtain ⟨a, r, hl, _, hr⟩ := h
        obtain ⟨e, hx, hmem⟩ := ih _ _ hr L1 x L2 hrest
        refine ⟨e, hx, ?_⟩
        rcases hmem with hmem | hmem
        · exact Or.inl (by rw [hl]; exact List.mem_cons_of_mem _ hmem)
        · exact Or.inr (List.mem_cons_of_mem _ hmem)

theorem Ref.push_of_lt {T : Type} (C : Nat) (l : List T) (e : T) (h : l.length < C) :
    Ref.push C l e = l ++ [e] := by
  have h0 : (l ++ [e]).length - C = 0 := by
    simp only [List.length_append, List.length_singleton]
    omega
  unfold Ref.push
  rw [h0, List.drop_zero]

theorem Ref.push_of_full {T : Type} (C : Nat) (a : T) (r : List T) (e : T)
    (h : (a :: r).length = C) : Ref.push C (a :: r) e = r ++ [e] := by
  have h0 : (a :: r ++ [e]).length - C = 1 := by
    simp only [List.length_append, List.length_singleton]
    omega
  unfold Ref.push
  rw [h0]
  rfl

theorem Fifo_Push {T : Type} {C : Nat} {q : Queue T} {l : List T}
    (h : Refines C q l) (e : T) :
    Printed.Fifo l (Queue.Push.printed q e) (Ref.push C l e) := by
  have hcnt := h.count_eq
  have hsz := h.1
  have hhi := h.2.1.count_hi
  unfold Queue.Push.printed
  split
  · rename_i hfull
    have hpos := h.2.1.size_pos
    cases l with
    | nil => simp at hcnt; omega
    | cons a r =>
      obtain ⟨_, hrd⟩ := Refines_front h
      have hlen : (a :: r).length = C := by omega
      rw [Ref.push_of_full C a r e hlen, hrd]
      exact ⟨a, r ++ [e], rfl, rfl, rfl⟩
  · rename_i hnf
    have hlt : l.length < C := by omega
    rw [Ref.push_of_lt C l e hlt]
    simp [Printed.Fifo]

theorem Fifo_removeFront {T : Type} {C : Nat} {q : Queue T} {l : List T}
    (h : Refines C q l) : Printed.Fifo l (Queue.removeFront.printed q) l.tail := by
  have hcnt := h.count_eq
  unfold Queue.removeFront.printed
  cases l with
  | nil =>
    have h0 : q.count = 0 := by simpa using hcnt
    simp [h0, Printed.Fifo]
  | cons a r =>
    obtain ⟨hne, hrd⟩ := Refines_front h
    rw [if_pos hne, hrd]
    exact ⟨a, r, rfl, rfl, rfl⟩

theorem Fifo_interfere {T : Type} {C : Nat} (env : List (EnvStep T)) :
    ∀ {q : Queue T} {l : List T}, Refines C q l →
      Printed.Fifo l (Queue.interfere.printed q env) (Ref.interfere C l env) := by
  induction env with
  | nil => intro q l _; simp [Queue.interfere.printed, Ref.interfere, Printed.Fifo]
  | cons s rest ih =>
    intro q l h
    cases s with
    | push e =>
      exact Printed.Fifo_append _ _ _ _ _ (Fifo_Push h e) (ih (Refines_Push h e))
    | pop =>
      exact Printed.Fifo_append _ _ _ _ _ (Fifo_removeFront h) (ih (Refines_removeFront h))

theorem Fifo_Pop {T : Type} {C : Nat} (wakes : List (List (EnvStep T))) :
    ∀ {q : Queue T} {l : List T}, Refines C q l →
      Printed.Fifo l (Queue.Pop.printed q wakes) (Ref.Pop C l wakes).2 := by
  induction wakes with
  | nil =>
    intro q l h
    cases l with
    | nil =>
      have h0 : q.count = 0 := by simpa using h.count_eq
      simp [Queue.Pop.printed, Ref.Pop, h0, Printed.Fifo]
    | cons a r =>
      obtain ⟨hne, hrd⟩ := Refines_front h
      simp only [Queue.Pop.printed, Ref.Pop, if_pos hne, hrd]
      exact ⟨a, r, rfl, rfl, rfl⟩
  | cons w ws ih =>
    intro q l h
    cases l with
    | nil =>
      have h0 : q.count = 0 := by simpa using h.count_eq
      simp only [Queue.Pop.printed, Ref.Pop, h0, ne_eq, not_true_eq_false, if_false]
      exact Printed.Fifo_append _ _ _ _ _ (Fifo_interfere w h) (ih (Refines_interfere w h))
    | cons a r =>
      obtain ⟨hne, hrd⟩ := Refines_front h
      simp only [Queue.Pop.printed, Ref.Pop, if_pos hne, hrd]
      exact ⟨a, r, rfl, rfl, rfl⟩

theorem Fifo_PopWithTimeout_loop {T : Type} {C : Nat} (t : Int)
    (waits : List (Int → WaitReturn T)) :
    ∀ {q : Queue T} {l : List T}, Refines C q l →
      Printed.Fifo l (Queue.PopWithTimeout.loop.printed t q waits)
        (Ref.PopWithTimeout C t l waits).2 := by
  induction waits with
  | nil =>
    intro q l h
    cases l with
    | nil =>
      have h0 : q.count = 0 := by simpa using h.count_eq
      simp [Queue.PopWithTimeout.loop.printed, Ref.PopWithTimeout, h0, Printed.Fifo]
    | cons a r =>
      obtain ⟨hne, hrd⟩ := Refines_front h
      simp only [Queue.PopWithTimeout.loop.printed, Ref.PopWithTimeout, if_neg hne, hrd]
      exact ⟨a, r, rfl, rfl, rfl⟩
  | cons w ws ih =>
    intro q l h
    cases l with
    | nil =>
      have h0 : q.count = 0 := by simpa using h.count_eq
      simp only [Queue.PopWithTimeout.loop.printed, Ref.PopWithTimeout, h0, if_true]
      by_cases hs : (w t).status = cv_status.timeout
      · simp only [if_pos hs]
        exact Fifo_interfere _ h
      · simp only [if_neg hs]
        exact Printed.Fifo_append _ _ _ _ _ (Fifo_interfere _ h) (ih (Refines_interfere _ h))
    | cons a r =>
      obtain ⟨hne, hrd⟩ := Refines_front h
      simp only [Queue.PopWithTimeout.loop.printed, Ref.PopWithTimeout, if_neg hne, hrd]
      exact ⟨a, r, rfl, rfl, rfl⟩

theorem Fifo_run {T : Type} {C : Nat} (calls : List (Call T)) :
    ∀ {q : Queue T} {l : List T}, Refines C q l →
      Printed.Fifo l (Queue.run.printed q calls) (Ref.run C l calls).2 := by
  induction calls with
  | nil => intro q l _; simp [Queue.run.printed, Ref.run, Printed.Fifo]
  | cons c cs ih =>
    intro q l h
    cases c with
    | Push e =>
      exact Printed.Fifo_append _ _ _ _ _ (Fifo_Push h e) (ih (Refines_Push h e))
    | Pop wakes =>
      exact Printed.Fifo_append _ _ _ _ _ (Fifo_Pop wakes h) (ih (Refines_Pop wakes h).2)
    | PopWithTimeout now ms waits =>
      exact Printed.Fifo_append _ _ _ _ _ (Fifo_PopWithTimeout_loop (now + ms) waits h)
        (ih (Refines_PopWithTimeout_loop (now + ms) waits h).2)

/-! ## The values returned to the caller are among the printed pops -/

theorem Queue.Pop_values_sublist {T : Type} (wakes : List (List (EnvStep T))) :
    ∀ q : Queue T,
      List.Sublist (Outcome.values [(q.Pop wakes).1]) (Printed.popped (Queue.Pop.printed q wakes)) := by
  induction wakes with
  | nil =>
    intro q
    unfold Queue.Pop Queue.Pop.printed
    split <;> simp [Outcome.values, Printed.popped]
  | cons w ws ih =>
    intro q
    unfold Queue.Pop Queue.Pop.printed
    split
    · simp [Outcome.values, Printed.popped]
    · rw [Printed.popped_append]
      exact List.Sublist.trans (ih _) (List.sublist_append_right _ _)

theorem Queue.PopWithTimeout.loop_values_sublist {T : Type} (t : Int)
    (waits : List (Int → WaitReturn T)) :
    ∀ q : Queue T,
      List.Sublist (Outcome.values [(Queue.PopWithTimeout.loop t q waits).1])
        (Printed.popped (Queue.PopWithTimeout.loop.printed t q waits)) := by
  induction waits with
  | nil =>
    intro q
    unfold Queue.PopWithTimeout.loop Queue.PopWithTimeout.loop.printed
    split <;> simp [Outcome.values, Printed.popped]
  | cons w ws ih =>
    intro q
    unfold Queue.PopWithTimeout.loop Queue.PopWithTimeout.loop.printed
    split
    · simp only []
      split
      · simp [Outcome.values]
      · rw [Printed.popped_append]
        exact List.Sublist.trans (ih _) (List.sublist_append_right _ _)
    · simp [Outcome.values, Printed.popped]

theorem Outcome.values_cons {α : Type} (o : Outcome α) (os : List (Outcome α)) :
    Outcome.values (o :: os) = Outcome.values [o] ++ Outcome.values os := by
  cases o <;> simp [Outcome.values]

theorem Queue.run_values_sublist {T : Type} (calls : List (Call T)) :
    ∀ q : Queue T,
      List.Sublist (Outcome.values (q.run calls).1) (Printed.popped (Queue.run.printed q calls)) := by
  induction calls with
  | nil => intro q; simp [Queue.run, Outcome.values]
  | cons c cs ih =>
    intro q
    cases c with
    | Push e =>
      simp only [Queue.run, Queue.run.printed, Printed.popped_append]
      exact List.Sublist.trans (ih _) (List.sublist_append_right _ _)
    | Pop wakes =>
      simp only [Queue.run, Queue.run.printed, Printed.popped_append]
      rw [Outcome.values_cons]
      exact List.Sublist.append (Queue.Pop_values_sublist wakes q) (ih _)
    | PopWithTimeout now ms waits =>
      simp only [Queue.run, Queue.run.printed, Printed.popped_append, Queue.PopWithTimeout]
      rw [Outcome.values_cons]
      exact List.Sublist.append (Queue.PopWithTimeout.loop_values_sublist _ waits q) (ih _)


/-! ## Exactness of the 32-bit arithmetic -/

theorem toInt32_of_fits (x : Int) (h : fitsInt32 x) : toInt32 x = x := by
  obtain ⟨h1, h2⟩ := h
  unfold toInt32
  omega

theorem toUInt32_of_nonneg (x : Int) (h0 : 0 ≤ x) (h1 : x ≤ 2147483647) :
    ((toUInt32 x : Nat) : Int) = x := by
  unfold toUInt32
  omega

theorem remU32_exact (a : Int) (n : Nat) (h0 : 0 ≤ a) (h1 : a ≤ 2147483647)
    (hn0 : 0 < n) (hn1 : n ≤ 2147483647) : remU32 a n = a % (n : Int) := by
  have hn : (0 : Int) < (n : Int) := by exact_mod_cast hn0
  have hr := emod_range a n hn
  unfold remU32
  rw [toInt32_of_fits a ⟨by omega, h1⟩, Int.natCast_mod, toUInt32_of_nonneg a h0 h1]
  exact toInt32_of_fits _ ⟨by omega, by omega⟩

theorem eqU32_exact (c : Int) (n : Nat) (h0 : 0 ≤ c) (h1 : c ≤ 2147483647) :
    toUInt32 c = n ↔ c = (n : Int) := by
  have h := toUInt32_of_nonneg c h0 h1
  constructor
  · intro he
    rw [← he, h]
  · intro he
    have : ((toUInt32 c : Nat) : Int) = (n : Int) := by rw [h, he]
    exact_mod_cast this

theorem Queue.new32_eq {T : Type} (C : Nat) (h0 : 1 ≤ C) (h1 : C ≤ 2147483647) :
    (Queue.new32 C : Queue T) = Queue.new C := by
  have hc : (1 : Int) ≤ (C : Int) := by exact_mod_cast h0
  have hc1 : (C : Int) ≤ 2147483647 := by exact_mod_cast h1
  unfold Queue.new32 Queue.new
  rw [toUInt32_of_nonneg _ (by omega) (by omega), toInt32_of_fits _ ⟨by omega, by omega⟩]

theorem Queue.removeFront32_eq {T : Type} (q : Queue T) (h : q.WF)
    (hmax : q.queueSize ≤ 2147483647) : q.removeFront32 = q.removeFront := by
  have hm : (q.queueSize : Int) ≤ 2147483647 := by exact_mod_cast hmax
  have h1 := h.front_lo
  have h2 := h.front_hi
  have h3 := h.count_lo
  have h4 := h.count_hi
  unfold Queue.removeFront32 Queue.removeFront
  rw [remU32_exact _ _ (by omega) (by omega) h.size_pos hmax,
    toInt32_of_fits (q.count - 1) ⟨by omega, by omega⟩]

theorem Queue.Push32_eq {T : Type} (q : Queue T) (e : T) (h : q.WF)
    (hmax : q.queueSize ≤ 2147483647) : q.Push32 e = q.Push e := by
  have hm : (q.queueSize : Int) ≤ 2147483647 := by exact_mod_cast hmax
  have h1 := h.front_lo
  have h2 := h.front_hi
  have h3 := h.count_lo
  have h4 := h.count_hi
  have h5 := h.rear_lo
  have h6 := h.rear_hi
  have hr := remU32_exact (q.rear + 1) q.queueSize (by omega) (by omega) h.size_pos hmax
  have hf := remU32_exact (q.front + 1) q.queueSize (by omega) (by omega) h.size_pos hmax
  by_cases hc : q.count = (q.queueSize : Int)
  · have hc32 : toUInt32 q.count = q.queueSize :=
      (eqU32_exact q.count q.queueSize h3 (by omega)).mpr hc
    simp only [Queue.Push32, Queue.Push, if_pos hc, if_pos hc32, hr, hf]
    rw [toInt32_of_fits (q.count - 1) ⟨by omega, by omega⟩,
      toInt32_of_fits (q.count - 1 + 1) ⟨by omega, by omega⟩]
  · have hc32 : ¬ toUInt32 q.count = q.queueSize := fun h32 =>
      hc ((eqU32_exact q.count q.queueSize h3 (by omega)).mp h32)
    simp only [Queue.Push32, Queue.Push, if_neg hc, if_neg hc32, hr]
    rw [toInt32_of_fits (q.count + 1) ⟨by omega, by omega⟩]

theorem Queue.interfere32_eq {T : Type} {C : Nat} (hmax : C ≤ 2147483647)
    (env : List (EnvStep T)) :
    ∀ {q : Queue T} {l : List T}, Refines C q l → q.interfere32 env = q.interfere env := by
  induction env with
  | nil => intro q l _; rfl
  | cons s rest ih =>
    intro q l h
    have hq : q.queueSize ≤ 2147483647 := by rw [h.1]; exact hmax
    cases s with
    | push e =>
      simp only [Queue.interfere32, Queue.interfere, Queue.Push32_eq q e h.2.1 hq]
      exact ih (Refines_Push h e)
    | pop =>
      simp only [Queue.interfere32, Queue.interfere, Queue.removeFront32_eq q h.2.1 hq]
      exact ih (Refines_removeFront h)

theorem Queue.dequeue32_eq {T : Type} {C : Nat} (hmax : C ≤ 2147483647)
    {q : Queue T} {l : List T} (h : Refines C q l) :
    ({ q with front := remU32 (q.front + 1) q.queueSize, count := toInt32 (q.count - 1) }
      : Queue T)
      = { q with front := (q.front + 1) % (q.queueSize : Int), count := q.count - 1 } := by
  have hq : q.queueSize ≤ 2147483647 := by rw [h.1]; exact hmax
  have hm : (q.queueSize : Int) ≤ 2147483647 := by exact_mod_cast hq
  have h1 := h.2.1.front_lo
  have h2 := h.2.1.front_hi
  have h3 := h.2.1.count_lo
  have h4 := h.2.1.count_hi
  rw [remU32_exact _ _ (by omega) (by omega) h.2.1.size_pos hq,
    toInt32_of_fits (q.count - 1) ⟨by omega, by omega⟩]

theorem Queue.Pop32_eq {T : Type} {C : Nat} (hmax : C ≤ 2147483647)
    (wakes : List (List (EnvStep T))) :
    ∀ {q : Queue T} {l : List T}, Refines C q l → q.Pop32 wakes = q.Pop wakes := by
  induction wakes with
  | nil =>
    intro q l h
    simp only [Queue.Pop32, Queue.Pop, Queue.dequeue32_eq hmax h]
  | cons w ws ih =>
    intro q l h
    simp only [Queue.Pop32, Queue.Pop, Queue.dequeue32_eq hmax h,
      Queue.interfere32_eq hmax w h, ih (Refines_interfere w h)]

theorem Queue.PopWithTimeout32.loop_eq {T : Type} {C : Nat} (hmax : C ≤ 2147483647) (t : Int)
    (waits : List (Int → WaitReturn T)) :
    ∀ {q : Queue T} {l : List T}, Refines C q l →
      Queue.PopWithTimeout32.loop t q waits = Queue.PopWithTimeout.loop t q waits := by
  induction waits with
  | nil =>
    intro q l h
    simp only [Queue.PopWithTimeout32.loop, Queue.PopWithTimeout.loop,
      Queue.dequeue32_eq hmax h]
  | cons w ws ih =>
    intro q l h
    simp only [Queue.PopWithTimeout32.loop, Queue.PopWithTimeout.loop,
      Queue.dequeue32_eq hmax h, Queue.interfere32_eq hmax _ h, ih (Refines_interfere _ h)]

theorem Queue.run32_eq {T : Type} {C : Nat} (hmax : C ≤ 2147483647) (calls : List (Call T)) :
    ∀ {q : Queue T} {l : List T}, Refines C q l → q.run32 calls = q.run calls := by
  induction calls with
  | nil => intro q l _; rfl
  | cons c cs ih =>
    intro q l h
    have hq : q.queueSize ≤ 2147483647 := by rw [h.1]; exact hmax
    cases c with
    | Push e =>
      simp only [Queue.run32, Queue.run, Queue.Push32_eq q e h.2.1 hq]
      exact ih (Refines_Push h e)
    | Pop wakes =>
      simp only [Queue.run32, Queue.run, Queue.Pop32_eq hmax wakes h,
        ih (Refines_Pop wakes h).2]
    | PopWithTimeout now ms waits =>
      simp only [Queue.run32, Queue.run, Queue.PopWithTimeout32, Queue.PopWithTimeout,
        Queue.PopWithTimeout32.loop_eq hmax (now + ms) waits h,
        ih (Refines_PopWithTimeout_loop (now + ms) waits h).2]

theorem Queue.reached32_eq {T : Type} (C : Nat) (h0 : 1 ≤ C) (hmax : C ≤ 2147483647)
    (calls : List (Call T)) (env : List (EnvStep T)) :
    (Queue.reached32 C calls env : Queue T) = Queue.reached C calls env := by
  have hr := Refines_run calls (Refines_new (T := T) C h0)
  unfold Queue.reached32 Queue.reached
  rw [Queue.new32_eq C h0 hmax, Queue.run32_eq hmax calls (Refines_new (T := T) C h0),
    Queue.interfere32_eq hmax env hr.2]


/-! ## Runs in 32-bit arithmetic at any capacity -/

theorem toUInt32_toInt32 (n : Nat) (h : n < 4294967296) : toUInt32 (toInt32 (n : Int)) = n := by
  unfold toUInt32 toInt32
  omega

theorem toUInt32_toInt32_succ (n : Nat) (h : n + 1 < 4294967296) :
    toUInt32 (toInt32 (toInt32 (n : Int) + 1)) = n + 1 := by
  unfold toUInt32 toInt32
  omega

theorem toInt32_toInt32_succ (x : Int) : toInt32 (toInt32 x + 1) = toInt32 (x + 1) := by
  unfold toInt32
  omega

theorem toInt32_toInt32_pred (x : Int) : toInt32 (toInt32 x - 1) = toInt32 (x - 1) := by
  unfold toInt32
  omega

theorem toInt32_toInt32 (x : Int) : toInt32 (toInt32 x) = toInt32 x := by
  unfold toInt32
  omega

theorem toInt32_ne_zero (c : Nat) (h0 : 0 < c) (h1 : c < 4294967296) :
    toInt32 (c : Int) ≠ 0 := by
  unfold toInt32
  omega

theorem remU32_toInt32_succ (n C : Nat) (h : n + 1 < 4294967296) :
    remU32 (toInt32 (n : Int) + 1) C = toInt32 (((n + 1) % C : Nat) : Int) := by
  unfold remU32
  rw [toUInt32_toInt32_succ n h]

theorem Queue.Holds32_new {T : Type} (C : Nat) (h0 : 1 ≤ C) (h1 : C < 4294967296) :
    (Queue.new32 C : Queue T).Holds32 C 0 0 (C - 1) := by
  refine ⟨rfl, ?_, ?_, ?_⟩
  · show (0 : Int) = toInt32 ((0 : Nat) : Int)
    unfold toInt32
    omega
  · show (0 : Int) = toInt32 ((0 : Nat) : Int)
    unfold toInt32
    omega
  · show toInt32 ((toUInt32 ((C : Int) - 1) : Nat) : Int) = toInt32 ((C - 1 : Nat) : Int)
    congr 1
    unfold toUInt32
    omega

theorem Queue.Holds32_Push32 {T : Type} (q : Queue T) (e : T) (C f c r : Nat)
    (h : q.Holds32 C f c r) (hC : C < 4294967296) (hr : r < C) (hc : c < C) :
    (q.Push32 e).Holds32 C f (c + 1) ((r + 1) % C) := by
  obtain ⟨hs, hf, hcnt, hrear⟩ := h
  have hne : ¬ toUInt32 q.count = q.queueSize := by
    rw [hcnt, toUInt32_toInt32 c (by omega), hs]
    omega
  simp only [Queue.Push32, if_neg hne]
  refine ⟨hs, hf, ?_, ?_⟩
  · show toInt32 (q.count + 1) = toInt32 ((c + 1 : Nat) : Int)
    rw [hcnt, toInt32_toInt32_succ]
    push_cast
    rfl
  · show remU32 (q.rear + 1) q.queueSize = toInt32 (((r + 1) % C : Nat) : Int)
    rw [hrear, hs, remU32_toInt32_succ r C (by omega)]

theorem Queue.Holds32_Push32_full {T : Type} (q : Queue T) (e : T) (C f r : Nat)
    (h : q.Holds32 C f C r) (h0 : 1 ≤ C) (hC : C < 4294967296) (hf1 : f < C) (hr : r < C) :
    (q.Push32 e).Holds32 C ((f + 1) % C) C ((r + 1) % C) := by
  obtain ⟨hs, hf, hcnt, hrear⟩ := h
  have hfull : toUInt32 q.count = q.queueSize := by
    rw [hcnt, toUInt32_toInt32 C hC, hs]
  simp only [Queue.Push32, if_pos hfull]
  refine ⟨hs, ?_, ?_, ?_⟩
  · show remU32 (q.front + 1) q.queueSize = toInt32 (((f + 1) % C : Nat) : Int)
    rw [hf, hs, remU32_toInt32_succ f C (by omega)]
  · show toInt32 (toInt32 (q.count - 1) + 1) = toInt32 ((C : Nat) : Int)
    rw [hcnt, toInt32_toInt32_succ, Int.sub_add_cancel, toInt32_toInt32]
  · show remU32 (q.rear + 1) q.queueSize = toInt32 (((r + 1) % C : Nat) : Int)
    rw [hrear, hs, remU32_toInt32_succ r C (by omega)]

theorem Queue.Pop32_of_Holds32 {T : Type} (q : Queue T) (C f c r : Nat)
    (h : q.Holds32 C f c r) (hC : C < 4294967296) (hf1 : f < C) (hc0 : 0 < c) (hc : c ≤ C) :
    (q.Pop32 []).1 = Outcome.returned (readSlot q.array q.front) ∧
    (q.Pop32 []).2.Holds32 C ((f + 1) % C) (c - 1) r := by
  obtain ⟨hs, hf, hcnt, hrear⟩ := h
  have hne : q.count ≠ 0 := by
    rw [hcnt]
    exact toInt32_ne_zero c hc0 (by omega)
  simp only [Queue.Pop32, if_pos hne]
  refine ⟨trivial, hs, ?_, ?_, hrear⟩
  · show remU32 (q.front + 1) q.queueSize = toInt32 (((f + 1) % C : Nat) : Int)
    rw [hf, hs, remU32_toInt32_succ f C (by omega)]
  · show toInt32 (q.count - 1) = toInt32 ((c - 1 : Nat) : Int)
    rw [hcnt, toInt32_toInt32_pred]
    congr 1
    omega

theorem Queue.run32_append {T : Type} (a b : List (Call T)) :
    ∀ q : Queue T, q.run32 (a ++ b)
      = ((q.run32 a).1 ++ ((q.run32 a).2.run32 b).1, ((q.run32 a).2.run32 b).2) := by
  induction a with
  | nil => intro q; rfl
  | cons c cs ih =>
    intro q
    cases c with
    | Push e =>
      show Queue.run32 q (Call.Push e :: (cs ++ b)) = _
      simp only [Queue.run32]
      exact ih _
    | Pop wakes =>
      show Queue.run32 q (Call.Pop wakes :: (cs ++ b)) = _
      simp only [Queue.run32]
      rw [ih]
      rfl
    | PopWithTimeout now ms waits =>
      show Queue.run32 q (Call.PopWithTimeout now ms waits :: (cs ++ b)) = _
      simp only [Queue.run32]
      rw [ih]
      rfl

theorem Queue.run32_pushes_Holds32 {T : Type} (e : T) (C f : Nat) (hC : C < 4294967296)
    (n : Nat) :
    ∀ (q : Queue T) (c r : Nat), q.Holds32 C f c r → r < C → c + n ≤ C →
      (q.run32 (List.replicate n (Call.Push e))).1 = [] ∧
      (q.run32 (List.replicate n (Call.Push e))).2.Holds32 C f (c + n) ((r + n) % C) := by
  induction n with
  | zero =>
    intro q c r h hr _
    refine ⟨rfl, ?_⟩
    have : (r + 0) % C = r := Nat.mod_eq_of_lt hr
    rw [this]
    exact h
  | succ n ih =>
    intro q c r h hr hc
    have h1 := Queue.Holds32_Push32 q e C f c r h hC hr (by omega)
    have hpos : 0 < C := by omega
    obtain ⟨h2, h3⟩ := ih (q.Push32 e) (c + 1) ((r + 1) % C) h1 (Nat.mod_lt _ hpos) (by omega)
    simp only [List.replicate_succ, Queue.run32]
    refine ⟨h2, ?_⟩
    have e1 : c + (n + 1) = c + 1 + n := by omega
    have e2 : (r + (n + 1)) % C = ((r + 1) % C + n) % C := by
      rw [Nat.mod_add_mod]
      congr 1
      omega
    rw [e1, e2]
    exact h3

theorem Queue.run32_pops_Holds32 {T : Type} (C r : Nat) (hC : C < 4294967296) (n : Nat) :
    ∀ (q : Queue T) (f c : Nat), q.Holds32 C f c r → f < C → n ≤ c → c ≤ C →
      (q.run32 (List.replicate n (Call.Pop []))).2.Holds32 C ((f + n) % C) (c - n) r := by
  induction n with
  | zero =>
    intro q f c h hf _ _
    have : (f + 0) % C = f := Nat.mod_eq_of_lt hf
    rw [this]
    exact h
  | succ n ih =>
    intro q f c h hf hn hc
    have hpos : 0 < C := by omega
    obtain ⟨_, h1⟩ := Queue.Pop32_of_Holds32 q C f c r h hC hf (by omega) hc
    have h3 := ih (q.Pop32 []).2 ((f + 1) % C) (c - 1) h1 (Nat.mod_lt _ hpos) (by omega) (by omega)
    simp only [List.replicate_succ, Queue.run32]
    have e1 : c - (n + 1) = c - 1 - n := by omega
    have e2 : (f + (n + 1)) % C = ((f + 1) % C + n) % C := by
      rw [Nat.mod_add_mod]
      congr 1
      omega
    rw [e1, e2]
    exact h3

theorem readSlot_of_neg {T : Type} (a : List (Option T)) (i : Int) (h : i < 0) :
    readSlot a i = none := by
  unfold readSlot
  rw [if_neg (by omega)]

theorem Outcome.returned_none_not_mem_map {T : Type} (l : List T) :
    (Outcome.returned none : Outcome (Option T))
      ∉ l.map (fun e => Outcome.returned (some e)) := by
  intro h
  obtain ⟨e, _, he⟩ := List.mem_map.mp h
  simp at he


theorem Queue.run32_pushes_fresh {T : Type} (e : T) (C n : Nat) (h0 : 1 ≤ C)
    (hC : C < 4294967296) (hn : n ≤ C) :
    ((Queue.new32 C : Queue T).run32 ((List.replicate n e).map Call.Push)).1 = [] ∧
    ((Queue.new32 C : Queue T).run32 ((List.replicate n e).map Call.Push)).2.Holds32
      C 0 n ((C - 1 + n) % C) := by
  have h := Queue.run32_pushes_Holds32 e C 0 hC n (Queue.new32 C : Queue T) 0 (C - 1)
    (Queue.Holds32_new C h0 hC) (by omega) (by omega)
  rw [Nat.zero_add] at h
  rw [List.map_replicate]
  exact h

theorem Queue.run32_pops_read_negative {T : Type} (q : Queue T) (C f r : Nat)
    (h : q.Holds32 C f C r) (h0 : 2147483648 < C) (hC : C < 4294967296)
    (hf : f ≤ 2147483648) :
    Outcome.returned none ∈ (q.run32 (List.replicate C (Call.Pop []))).1 := by
  obtain ⟨m, hm⟩ : ∃ m, m = 2147483648 - f := ⟨_, rfl⟩
  obtain ⟨k, hk⟩ : ∃ k, k = C - (m + 1) := ⟨_, rfl⟩
  have hsplit : List.replicate C (Call.Pop [] : Call T)
      = List.replicate m (Call.Pop []) ++ (Call.Pop [] :: List.replicate k (Call.Pop [])) := by
    have : C = m + (k + 1) := by omega
    rw [this, List.replicate_add, List.replicate_succ]
  have h3 := Queue.run32_pops_Holds32 C r hC m q f C h (by omega) (by omega) (by omega)
  have hfm : (f + m) % C = 2147483648 := by
    have : f + m = 2147483648 := by omega
    rw [this]
    exact Nat.mod_eq_of_lt h0
  rw [hfm] at h3
  obtain ⟨hout, _⟩ := Queue.Pop32_of_Holds32 _ C 2147483648 (C - m) r h3 hC h0
    (by omega) (by omega)
  have hfront : (q.run32 (List.replicate m (Call.Pop []))).2.front < 0 := by
    rw [h3.2.1]
    unfold toInt32
    omega
  rw [readSlot_of_neg _ _ hfront] at hout
  rw [hsplit, Queue.run32_append]
  apply List.mem_append_right
  simp only [Queue.run32]
  rw [hout]
  exact List.mem_cons_self _ _

theorem Queue.run32_fill_then_pop {T : Type} (e : T) (C : Nat) (h0 : 2147483648 < C)
    (hC : C < 4294967296) :
    Outcome.returned none ∈ ((Queue.new32 C : Queue T).run32
      ((List.replicate C e).map Call.Push ++ List.replicate C (Call.Pop []))).1 := by
  obtain ⟨_, h2⟩ := Queue.run32_pushes_fresh (T := T) e C C (by omega) hC (Nat.le_refl C)
  rw [Queue.run32_append]
  apply List.mem_append_right
  exact Queue.run32_pops_read_negative _ C 0 _ h2 h0 hC (by omega)

theorem Queue.run32_overfill_then_pop {T : Type} (e : T) (C : Nat) (h0 : 2147483648 < C)
    (hC : C < 4294967296) :
    Outcome.returned none ∈ ((Queue.new32 C : Queue T).run32
      ((List.replicate (C + 1) e).map Call.Push ++ List.replicate C (Call.Pop []))).1 := by
  obtain ⟨_, h2⟩ := Queue.run32_pushes_fresh (T := T) e C C (by omega) hC (Nat.le_refl C)
  have hpos : 0 < C := by omega
  have h3 := Queue.Holds32_Push32_full _ e C 0 _ h2 (by omega) hC hpos (Nat.mod_lt _ hpos)
  have hsplit : (List.replicate (C + 1) e).map Call.Push
      = (List.replicate C e).map Call.Push ++ [Call.Push e] := by
    rw [List.replicate_succ', List.map_append]
    rfl
  rw [Queue.run32_append]
  apply List.mem_append_right
  rw [hsplit, Queue.run32_append]
  have hstep : ∀ q : Queue T, (q.run32 [Call.Push e]).2 = q.Push32 e := fun _ => rfl
  rw [hstep]
  exact Queue.run32_pops_read_negative _ C ((0 + 1) % C) _ h3 h0 hC
    (by rw [Nat.mod_eq_of_lt (by omega)]; omega)

theorem Outcome.mem_values {α : Type} (x : α) (os : List (Outcome α))
    (h : Outcome.returned x ∈ os) : x ∈ Outcome.values os := by
  induction os with
  | nil => simp at h
  | cons o os ih =>
    rcases List.mem_cons.mp h with h1 | h1
    · subst h1
      simp [Outcome.values]
    · have := ih h1
      cases o <;> simp [Outcome.values, this]

theorem Ref.run_replicate_push_length {T : Type} (e : T) (C n : Nat) (hn : n ≤ C) :
    (Ref.run C [] ((List.replicate n e).map Call.Push)).2.length = n := by
  have h := Ref.run_pushes C (List.replicate n e) [] ([] : List T)
  rw [List.append_nil] at h
  have hf := Ref.foldl_push C (List.replicate n e) ([] : List T)
  simp only [List.length_nil, List.drop_nil, List.nil_append, List.length_replicate] at hf
  rw [h, hf]
  simp [Ref.run]
  omega

theorem Queue.run32_printed_pushes {T : Type} (e : T) (C f : Nat) (hC : C < 4294967296)
    (n : Nat) :
    ∀ (q : Queue T) (c r : Nat), q.Holds32 C f c r → r < C → c + n ≤ C →
      Queue.run32.printed q (List.replicate n (Call.Push e))
        = List.replicate n (Printed.push e) := by
  induction n with
  | zero => intro q c r _ _ _; rfl
  | succ n ih =>
    intro q c r h hr hc
    have h1 := Queue.Holds32_Push32 q e C f c r h hC hr (by omega)
    have hpos : 0 < C := by omega
    have h2 := ih (q.Push32 e) (c + 1) ((r + 1) % C) h1 (Nat.mod_lt _ hpos) (by omega)
    have hne : ¬ toUInt32 q.count = q.queueSize := by
      rw [h.2.2.1, toUInt32_toInt32 c (by omega), h.1]
      omega
    simp only [List.replicate_succ, Queue.run32.printed, Queue.Push32.printed, if_neg hne, h2]
    rfl

theorem Printed.pushed_replicate {T : Type} (e : T) (n : Nat) :
    Printed.pushed (List.replicate n (Printed.push e)) = List.replicate n e ∧
    Printed.evicted (List.replicate n (Printed.push e)) = [] ∧
    Printed.popped (List.replicate n (Printed.push e)) = [] := by
  induction n with
  | zero => exact ⟨rfl, rfl, rfl⟩
  | succ n ih =>
    simp only [List.replicate_succ, Printed.pushed, Printed.evicted, Printed.popped, ih]
    exact ⟨trivial, trivial, trivial⟩

/-! ## The printed lines in 32-bit arithmetic -/

theorem Queue.Push32_printed_eq {T : Type} (q : Queue T) (e : T) (h : q.WF)
    (hmax : q.queueSize ≤ 2147483647) :
    Queue.Push32.printed q e = Queue.Push.printed q e := by
  have hm : (q.queueSize : Int) ≤ 2147483647 := by exact_mod_cast hmax
  have h3 := h.count_lo
  have h4 := h.count_hi
  have hiff := eqU32_exact q.count q.queueSize h3 (by omega)
  unfold Queue.Push32.printed Queue.Push.printed
  by_cases hc : q.count = (q.queueSize : Int)
  · rw [if_pos hc, if_pos (hiff.mpr hc)]
  · rw [if_neg hc, if_neg (fun h32 => hc (hiff.mp h32))]

theorem Queue.interfere32_printed_eq {T : Type} {C : Nat} (hmax : C ≤ 2147483647)
    (env : List (EnvStep T)) :
    ∀ {q : Queue T} {l : List T}, Refines C q l →
      Queue.interfere32.printed q env = Queue.interfere.printed q env := by
  induction env with
  | nil => intro q l _; rfl
  | cons s rest ih =>
    intro q l h
    have hq : q.queueSize ≤ 2147483647 := by rw [h.1]; exact hmax
    cases s with
    | push e =>
      simp only [Queue.interfere32.printed, Queue.interfere.printed,
        Queue.Push32_printed_eq q e h.2.1 hq, Queue.Push32_eq q e h.2.1 hq,
        ih (Refines_Push h e)]
    | pop =>
      simp only [Queue.interfere32.printed, Queue.interfere.printed,
        Queue.removeFront32_eq q h.2.1 hq, ih (Refines_removeFront h)]

theorem Queue.Pop32_printed_eq {T : Type} {C : Nat} (hmax : C ≤ 2147483647)
    (wakes : List (List (EnvStep T))) :
    ∀ {q : Queue T} {l : List T}, Refines C q l →
      Queue.Pop32.printed q wakes = Queue.Pop.printed q wakes := by
  induction wakes with
  | nil => intro q l _; rfl
  | cons w ws ih =>
    intro q l h
    simp only [Queue.Pop32.printed, Queue.Pop.printed, Queue.interfere32_printed_eq hmax w h,
      Queue.interfere32_eq hmax w h, ih (Refines_interfere w h)]

theorem Queue.PopWithTimeout32.loop32_printed_eq {T : Type} {C : Nat} (hmax : C ≤ 2147483647)
    (t : Int) (waits : List (Int → WaitReturn T)) :
    ∀ {q : Queue T} {l : List T}, Refines C q l →
      Queue.PopWithTimeout32.loop.printed t q waits
        = Queue.PopWithTimeout.loop.printed t q waits := by
  induction waits with
  | nil => intro q l _; rfl
  | cons w ws ih =>
    intro q l h
    simp only [Queue.PopWithTimeout32.loop.printed, Queue.PopWithTimeout.loop.printed,
      Queue.interfere32_printed_eq hmax _ h, Queue.interfere32_eq hmax _ h,
      ih (Refines_interfere _ h)]

theorem Queue.run32_printed_eq {T : Type} {C : Nat} (hmax : C ≤ 2147483647)
    (calls : List (Call T)) :
    ∀ {q : Queue T} {l : List T}, Refines C q l →
      Queue.run32.printed q calls = Queue.run.printed q calls := by
  induction calls with
  | nil => intro q l _; rfl
  | cons c cs ih =>
    intro q l h
    have hq : q.queueSize ≤ 2147483647 := by rw [h.1]; exact hmax
    cases c with
    | Push e =>
      simp only [Queue.run32.printed, Queue.run.printed, Queue.Push32_printed_eq q e h.2.1 hq,
        Queue.Push32_eq q e h.2.1 hq, ih (Refines_Push h e)]
    | Pop wakes =>
      simp only [Queue.run32.printed, Queue.run.printed, Queue.Pop32_printed_eq hmax wakes h,
        Queue.Pop32_eq hmax wakes h, ih (Refines_Pop wakes h).2]
    | PopWithTimeout now ms waits =>
      simp only [Queue.run32.printed, Queue.run.printed, Queue.PopWithTimeout32,
        Queue.PopWithTimeout, Queue.PopWithTimeout32.loop32_printed_eq hmax (now + ms) waits h,
        Queue.PopWithTimeout32.loop_eq hmax (now + ms) waits h,
        ih (Refines_PopWithTimeout_loop (now + ms) waits h).2]

/-! ## A timed-out pop in 32-bit arithmetic -/

theorem Queue.interfere32_pops_of_empty {T : Type} (env : List (EnvStep T))
    (hnp : ∀ s ∈ env, s = EnvStep.pop) :
    ∀ q : Queue T, q.count = 0 → q.interfere32 env = q := by
  induction env with
  | nil => intro q _; rfl
  | cons s rest ih =>
    intro q h0
    have hs : s = EnvStep.pop := hnp s (List.mem_cons_self _ _)
    subst hs
    have hrf : q.removeFront32 = q := by simp [Queue.removeFront32, h0]
    simp only [Queue.interfere32, hrf]
    exact ih (fun s hs => hnp s (List.mem_cons_of_mem _ hs)) q h0

theorem Queue.foldl_interfere32_pops {T : Type} (t : Int) (ws : List (Int → WaitReturn T))
    (hnp : ∀ w ∈ ws, ∀ s ∈ (w t).env, s = EnvStep.pop) :
    ∀ q : Queue T, q.count = 0 → ws.foldl (fun s w => s.interfere32 (w t).env) q = q := by
  induction ws with
  | nil => intro q _; rfl
  | cons w ws ih =>
    intro q h0
    rw [List.foldl_cons,
      Queue.interfere32_pops_of_empty _ (hnp w (List.mem_cons_self _ _)) q h0]
    exact ih (fun w hw => hnp w (List.mem_cons_of_mem _ hw)) q h0

theorem Queue.PopWithTimeout32.loop32_threw {T : Type} (t : Int) (what : String)
    (waits : List (Int → WaitReturn T)) :
    ∀ q : Queue T, (Queue.PopWithTimeout32.loop t q waits).1 = Outcome.threw what →
      q.count = 0 ∧ ∃ n, n ≤ waits.length ∧
        (Queue.PopWithTimeout32.loop t q waits).2
          = (waits.take n).foldl (fun s w => s.interfere32 (w t).env) q := by
  induction waits with
  | nil =>
    intro q h
    simp only [Queue.PopWithTimeout32.loop] at h
    split at h <;> simp at h
  | cons w ws ih =>
    intro q h
    by_cases h0 : q.count = 0
    · refine ⟨h0, ?_⟩
      simp only [Queue.PopWithTimeout32.loop, if_pos h0] at h ⊢
      by_cases hs : (w t).status = cv_status.timeout
      · simp only [if_pos hs]
        exact ⟨1, by simp, by simp⟩
      · simp only [if_neg hs] at h ⊢
        obtain ⟨_, n, hn, hst⟩ := ih _ h
        exact ⟨n + 1, by simpa using hn, by rw [hst]; simp⟩
    · simp [Queue.PopWithTimeout32.loop, h0] at h


/-! ## Fresh queues at the first capacities that do not fit in `int` -/

theorem toInt32_two_pow_31 : toInt32 ((2147483648 : Nat) : Int) = -2147483648 := by
  unfold toInt32
  omega

theorem Queue.Count_eq {T : Type} (q : Queue T) : q.Count = q.count := rfl

theorem Queue.Size_eq {T : Type} (q : Queue T) : q.Size = q.queueSize := rfl

theorem Queue.new32_rear {T : Type} (C : Nat) :
    (Queue.new32 C : Queue T).rear = toInt32 ((toUInt32 ((C : Int) - 1) : Nat) : Int) := rfl

theorem Queue.new32_rear_overflow {T : Type} :
    ¬ fitsInt32 ((Queue.new32 2147483648 : Queue T).rear + 1) := by
  rw [Queue.new32_rear]
  unfold fitsInt32 toInt32 toUInt32
  omega

theorem Queue.new32_rear_negative {T : Type} :
    (Queue.new32 2147483649 : Queue T).rear = -2147483648 := by
  rw [Queue.new32_rear]
  unfold toInt32 toUInt32
  omega

theorem Queue.reached32_nil {T : Type} (C : Nat) :
    (Queue.reached32 C [] [] : Queue T) = Queue.new32 C := rfl


/-! ## Claims -/

/-- C1, counterexample: at capacity 2147483649 = 2^31 + 1, after C + 1 pushes one of
the C pops reads `array[front]` with `front == -2147483648` and returns a never-written
value, so the pops do not return the last C pushed elements; and at capacity 2^31 the
first `Push` already overflows the `int` addition `rear + 1`. -/
theorem C1_fails_above_int_max :
    (1 ≤ 2147483649 ∧ 1 ≤ 1 ∧
      (List.replicate (2147483649 + 1) ()).length = 2147483649 + 1) ∧
    ((Queue.new32 2147483649 : Queue Unit).run32
        ((List.replicate (2147483649 + 1) ()).map Call.Push
          ++ List.replicate 2147483649 (Call.Pop []))).1
      ≠ ((List.replicate (2147483649 + 1) ()).drop 1).map
          (fun e => Outcome.returned (some e)) ∧
    ¬ fitsInt32 ((Queue.new32 2147483648 : Queue Unit).rear + 1) := by
  refine ⟨⟨by decide, by decide, List.length_replicate _ _⟩, ?_,
    Queue.new32_rear_overflow⟩
  intro h
  have hm := Queue.run32_overfill_then_pop () 2147483649 (by decide) (by decide)
  rw [h] at hm
  exact Outcome.returned_none_not_mem_map _ hm

/-- C1, amended, drop-oldest on overflow: for every capacity `1 ≤ C ≤ 2^31 - 1`, on a
fresh queue, pushing `C + k` elements (`k ≥ 1`) without any pop and then calling `Pop`
`C` times returns exactly the last `C` pushed elements in push order, and `Count()` is
0 afterwards (32-bit arithmetic). -/
theorem C1_drop_oldest_on_overflow {T : Type} (C k : Nat) (es : List T) (hC : 1 ≤ C)
    (hmax : C ≤ 2147483647) (_hk : 1 ≤ k) (hlen : es.length = C + k) :
    ((Queue.new32 C : Queue T).run32
        (es.map Call.Push ++ List.replicate C (Call.Pop []))).1
        = (es.drop k).map (fun e => Outcome.returned (some e)) ∧
    ((Queue.new32 C : Queue T).run32
        (es.map Call.Push ++ List.replicate C (Call.Pop []))).2.Count = 0 := by
  rw [Queue.new32_eq C hC hmax, Queue.run32_eq hmax _ (Refines_new (T := T) C hC)]
  have hk : es.length - C = k := by omega
  have hl : (es.drop (es.length - C)).length = C := by
    rw [List.length_drop]
    omega
  obtain ⟨h1, h2⟩ := Queue.run_pushes_pops C C es hC (by omega)
  rw [hk] at h1 h2 hl
  constructor
  · rw [h1, List.take_of_length_le (by omega)]
  · have h3 := h2.count_eq
    rw [List.length_drop, hl] at h3
    simpa [Queue.Count] using h3

/-- Witness of C1: capacity 4, push 1..7, four pops return 4, 5, 6, 7. -/
theorem C1_drop_oldest_on_overflow_witness :
    1 ≤ 4 ∧ 4 ≤ 2147483647 ∧ 1 ≤ 3 ∧ [(1 : Int), 2, 3, 4, 5, 6, 7].length = 4 + 3 ∧
    ((Queue.new32 4 : Queue Int).run32
        ([(1 : Int), 2, 3, 4, 5, 6, 7].map Call.Push ++ List.replicate 4 (Call.Pop []))).1
        = [Outcome.returned (some 4), Outcome.returned (some 5), Outcome.returned (some 6),
           Outcome.returned (some 7)] ∧
    ((Queue.new32 4 : Queue Int).run32
        ([(1 : Int), 2, 3, 4, 5, 6, 7].map Call.Push
          ++ List.replicate 4 (Call.Pop []))).2.Count = 0 :=
  ⟨by decide, by decide, by decide, rfl,
    C1_drop_oldest_on_overflow 4 3 [(1 : Int), 2, 3, 4, 5, 6, 7] (by decide) (by decide)
      (by decide) rfl⟩

/-- C2, counterexample: at capacity 2147483649 = 2^31 + 1, after C pushes (no overflow
of the queue) the last of the C pops reads `array[front]` with `front == -2147483648`
and returns a never-written value, so the pops do not return the pushed elements; and
at capacity 2^31 the first `Push` already overflows the `int` addition `rear + 1`. -/
theorem C2_fails_above_int_max :
    (1 ≤ 2147483649 ∧ (List.replicate 2147483649 ()).length ≤ 2147483649) ∧
    ((Queue.new32 2147483649 : Queue Unit).run32
        ((List.replicate 2147483649 ()).map Call.Push
          ++ List.replicate (List.replicate 2147483649 ()).length (Call.Pop []))).1
      ≠ (List.replicate 2147483649 ()).map (fun e => Outcome.returned (some e)) ∧
    ¬ fitsInt32 ((Queue.new32 2147483648 : Queue Unit).rear + 1) := by
  refine ⟨⟨by decide, Nat.le_of_eq (List.length_replicate _ _)⟩, ?_,
    Queue.new32_rear_overflow⟩
  intro h
  have hm := Queue.run32_fill_then_pop () 2147483649 (by decide) (by decide)
  rw [List.length_replicate] at h
  rw [h] at hm
  exact Outcome.returned_none_not_mem_map _ hm

/-- C2, amended, FIFO order without overflow: for every capacity `1 ≤ C ≤ 2^31 - 1`, on
a fresh queue, pushing `n ≤ C` elements without any pop and then calling `Pop` `n`
times returns the elements in exactly the order they were pushed (32-bit arithmetic). -/
theorem C2_fifo_order_no_overflow {T : Type} (C : Nat) (es : List T) (hC : 1 ≤ C)
    (hmax : C ≤ 2147483647) (hn : es.length ≤ C) :
    ((Queue.new32 C : Queue T).run32
        (es.map Call.Push ++ List.replicate es.length (Call.Pop []))).1
      = es.map (fun e => Outcome.returned (some e)) := by
  rw [Queue.new32_eq C hC hmax, Queue.run32_eq hmax _ (Refines_new (T := T) C hC)]
  have h0 : es.length - C = 0 := by omega
  obtain ⟨h1, _⟩ := Queue.run_pushes_pops C es.length es hC (by rw [h0]; simp)
  rw [h1, h0, List.drop_zero, List.take_length]

/-- Witness of C2: capacity 3, push 10, 20 and pop twice. -/
theorem C2_fifo_order_no_overflow_witness :
    1 ≤ 3 ∧ 3 ≤ 2147483647 ∧ [(10 : Int), 20].length ≤ 3 ∧
    ((Queue.new32 3 : Queue Int).run32
        ([(10 : Int), 20].map Call.Push ++ List.replicate [(10 : Int), 20].length (Call.Pop []))).1
      = [Outcome.returned (some 10), Outcome.returned (some 20)] :=
  ⟨by decide, by decide, by decide,
    C2_fifo_order_no_overflow 3 [(10 : Int), 20] (by decide) (by decide) (by decide)⟩

/-- C3, counterexample: at capacity 2^31, after 2^31 pushes on a fresh queue `Count()`
is -2147483648, which is negative. -/
theorem C3_count_negative_at_two_pow_31 :
    1 ≤ 2147483648 ∧
    ((Queue.new32 2147483648 : Queue Unit).run32
        ((List.replicate 2147483648 ()).map Call.Push)).2.Count = -2147483648 ∧
    ¬ (0 ≤ ((Queue.new32 2147483648 : Queue Unit).run32
        ((List.replicate 2147483648 ()).map Call.Push)).2.Count) := by
  obtain ⟨_, h⟩ := Queue.run32_pushes_fresh (T := Unit) () 2147483648 2147483648
    (by decide) (by decide) (by decide)
  have hc : ((Queue.new32 2147483648 : Queue Unit).run32
      ((List.replicate 2147483648 ()).map Call.Push)).2.Count = -2147483648 := by
    rw [Queue.Count_eq, h.2.2.1]
    exact toInt32_two_pow_31
  refine ⟨by decide, hc, ?_⟩
  rw [hc]
  omega

/-- C3, amended, capacity invariant: for every capacity `1 ≤ C ≤ 2^31 - 1`, after each
call of any finite sequence of `Push`, `Pop` and `PopWithTimeout` calls on a fresh
queue, the value of `Count()` satisfies `0 ≤ Count() ≤ Size()` (32-bit arithmetic). -/
theorem C3_capacity_invariant {T : Type} (C : Nat) (hC : 1 ≤ C) (hmax : C ≤ 2147483647)
    (calls : List (Call T)) (n : Nat) :
    0 ≤ ((Queue.new32 C : Queue T).run32 (calls.take n)).2.Count ∧
    ((Queue.new32 C : Queue T).run32 (calls.take n)).2.Count
      ≤ (((Queue.new32 C : Queue T).run32 (calls.take n)).2.Size : Int) := by
  rw [Queue.new32_eq C hC hmax, Queue.run32_eq hmax _ (Refines_new (T := T) C hC)]
  have h := (Refines_run (calls.take n) (Refines_new (T := T) C hC)).2
  exact ⟨h.2.1.count_lo, h.2.1.count_hi⟩

/-- Witness of C3: capacity 2, after the first four of five calls. -/
theorem C3_capacity_invariant_witness :
    1 ≤ 2 ∧ 2 ≤ 2147483647 ∧
    0 ≤ ((Queue.new32 2 : Queue Int).run32
      ([Call.Push 1, Call.Push 2, Call.Push 3, Call.Pop [], Call.Push 4].take 4)).2.Count ∧
    ((Queue.new32 2 : Queue Int).run32
      ([Call.Push 1, Call.Push 2, Call.Push 3, Call.Pop [], Call.Push 4].take 4)).2.Count
      ≤ (((Queue.new32 2 : Queue Int).run32
      ([Call.Push 1, Call.Push 2, Call.Push 3, Call.Pop [], Call.Push 4].take 4)).2.Size : Int) :=
  ⟨by decide, by decide, C3_capacity_invariant 2 (by decide) (by decide)
    [Call.Push 1, Call.Push 2, Call.Push 3, Call.Pop [], Call.Push 4] 4⟩

/-- C4, counterexample: on an empty queue of capacity 2, when another thread pushes 7
during the wait and `wait_until` reports `timeout`, `PopWithTimeout` fails with the
error and the state after the call is not the state before it: `Count()` is 1. -/
theorem C4_state_differs_after_timeout :
    ((Queue.new32 2 : Queue Int).PopWithTimeout32 0 500
        [fun _ => ⟨[EnvStep.push 7], cv_status.timeout⟩]).1
      = Outcome.threw "Can't pop because the queue is already empty." ∧
    ((Queue.new32 2 : Queue Int).PopWithTimeout32 0 500
        [fun _ => ⟨[EnvStep.push 7], cv_status.timeout⟩]).2 ≠ Queue.new32 2 ∧
    (Queue.new32 2 : Queue Int).Count = 0 ∧
    ((Queue.new32 2 : Queue Int).PopWithTimeout32 0 500
        [fun _ => ⟨[EnvStep.push 7], cv_status.timeout⟩]).2.Count = 1 := by
  decide

/-- C4, amended, a timed-out pop changes nothing itself: whenever `PopWithTimeout` ends
with the error, the call found `count == 0` and the final state is the initial state
changed only by the steps other threads took during the waits; when no other thread
pushed meanwhile, the final state (front, rear, count, capacity and every slot) is
identical to the initial one and `Count()` still returns 0 (32-bit arithmetic). -/
theorem C4_timed_out_pop_leaves_state {T : Type} (q : Queue T) (now milliseconds : Int)
    (waits : List (Int → WaitReturn T)) (what : String)
    (h : (q.PopWithTimeout32 now milliseconds waits).1 = Outcome.threw what) :
    q.Count = 0 ∧
    (∃ n, n ≤ waits.length ∧ (q.PopWithTimeout32 now milliseconds waits).2
      = (waits.take n).foldl (fun s w => s.interfere32 (w (now + milliseconds)).env) q) ∧
    ((∀ w ∈ waits, ∀ s ∈ (w (now + milliseconds)).env, s = EnvStep.pop) →
      (q.PopWithTimeout32 now milliseconds waits).2 = q ∧
      (q.PopWithTimeout32 now milliseconds waits).2.Count = 0) := by
  obtain ⟨h0, n, hn, hst⟩ :=
    Queue.PopWithTimeout32.loop32_threw (now + milliseconds) what waits q h
  refine ⟨h0, ⟨n, hn, hst⟩, ?_⟩
  intro hnil
  have hq : (q.PopWithTimeout32 now milliseconds waits).2 = q := by
    show (Queue.PopWithTimeout32.loop (now + milliseconds) q waits).2 = q
    rw [hst]
    exact Queue.foldl_interfere32_pops _ _
      (fun w hw => hnil w (List.mem_of_mem_take hw)) q h0
  exact ⟨hq, by rw [hq]; exact h0⟩

/-- Witness of C4: an empty queue of capacity 2 whose only wait times out. -/
theorem C4_timed_out_pop_leaves_state_witness :
    ((Queue.new32 2 : Queue Int).PopWithTimeout32 0 500
        [fun _ => ⟨[], cv_status.timeout⟩]).1
      = Outcome.threw "Can't pop because the queue is already empty." ∧
    ((Queue.new32 2 : Queue Int).PopWithTimeout32 0 500 [fun _ => ⟨[], cv_status.timeout⟩]).2
      = Queue.new32 2 ∧
    ((Queue.new32 2 : Queue Int).PopWithTimeout32 0 500
        [fun _ => ⟨[], cv_status.timeout⟩]).2.Count = 0 :=
  ⟨by decide,
    (C4_timed_out_pop_leaves_state (Queue.new32 2 : Queue Int) 0 500
      [fun _ => ⟨[], cv_status.timeout⟩] "Can't pop because the queue is already empty."
      (by decide)).2.2 (by simp)⟩

/-- C5, evaluation at the failing input: on an empty queue of capacity 2, when another
thread pushes 7 during the wait and `wait_until` still reports `timeout`, the call
throws although `count` is 1 and 7 is at the head; the element stays in the queue. -/
theorem C5_timeout_status_throws_with_element_queued :
    ((Queue.new 2 : Queue Int).PopWithTimeout 0 500
        [fun _ => ⟨[EnvStep.push 7], cv_status.timeout⟩]).1
      = Outcome.threw "Can't pop because the queue is already empty." ∧
    ((Queue.new 2 : Queue Int).PopWithTimeout 0 500
        [fun _ => ⟨[EnvStep.push 7], cv_status.timeout⟩]).2.Count = 1 ∧
    ((Queue.new 2 : Queue Int).PopWithTimeout 0 500
        [fun _ => ⟨[EnvStep.push 7], cv_status.timeout⟩]).2.contents = [some 7] := by
  decide

/-- C6, counterexample: constructing with capacity 0 does not fail; it produces a queue
object whose `Size()` is 0. -/
theorem C6_zero_capacity_is_constructed :
    ∃ q : Queue Int, Queue.new 0 = q ∧ q.Size = 0 ∧ q.Count = 0 ∧ q.array = [] ∧ q.rear = -1 :=
  ⟨Queue.new 0, rfl, rfl, rfl, rfl, rfl⟩

/-- C6, amended: the constructor makes no check of the capacity and there is no
InvalidCapacity error: whenever the allocation `new T[size]` succeeds, construction
produces a queue object with `Size() == size` and `Count() == 0`, for capacity 0 as for
any capacity `≥ 1`; construction fails only when that allocation fails. -/
theorem C6_construction_has_no_capacity_check {T : Type} (C : Nat) :
    (∃ q : Queue T, Queue.construct C true = Constructed.queue q ∧ q.Size = C ∧
      q.Count = 0) ∧
    (∀ allocated : Bool,
      (Queue.construct C allocated : Constructed T) = Constructed.bad_alloc
        ↔ allocated = false) := by
  refine ⟨⟨Queue.new32 C, rfl, rfl, rfl⟩, ?_⟩
  intro allocated
  cases allocated <;> simp [Queue.construct]

/-- C7, error of a timed-out pop: on a queue of capacity at least 1 whose count is 0,
a `PopWithTimeout` call during whose waits no `Push` happens and one of whose waits
reports `timeout` (after any number of wake-ups without timeout) throws
`std::range_error` with the message "Can't pop because the queue is already empty.",
returns no element and leaves the queue as it was. -/
theorem C7_timeout_error_message {T : Type} (q : Queue T) (now milliseconds : Int)
    (pre : List (Int → WaitReturn T)) (w : Int → WaitReturn T)
    (rest : List (Int → WaitReturn T))
    (_hC : 1 ≤ q.Size) (hcount : q.Count = 0)
    (hpre : ∀ p ∈ pre, (p (now + milliseconds)).status = cv_status.no_timeout ∧
      ∀ s ∈ (p (now + milliseconds)).env, s = EnvStep.pop)
    (hw : (w (now + milliseconds)).status = cv_status.timeout ∧
      ∀ s ∈ (w (now + milliseconds)).env, s = EnvStep.pop) :
    q.PopWithTimeout now milliseconds (pre ++ w :: rest)
      = (Outcome.threw "Can't pop because the queue is already empty.", q) := by
  show Queue.PopWithTimeout.loop (now + milliseconds) q (pre ++ w :: rest) = _
  have hcount0 : q.count = 0 := hcount
  clear hcount
  induction pre with
  | nil =>
    simp only [List.nil_append, Queue.PopWithTimeout.loop, if_pos hcount0, if_pos hw.1,
      Queue.interfere_pops_of_empty _ hw.2 q hcount0]
  | cons p pre ih =>
    have hp := hpre p (List.mem_cons_self _ _)
    have hne : ¬ (p (now + milliseconds)).status = cv_status.timeout := by
      rw [hp.1]; decide
    simp only [List.cons_append, Queue.PopWithTimeout.loop, if_pos hcount0, if_neg hne,
      Queue.interfere_pops_of_empty _ hp.2 q hcount0]
    exact ih (fun p hp => hpre p (List.mem_cons_of_mem _ hp))

/-- Witness of C7: `Queue<int>(2)` after 5 pushes and 4 pops, then `PopWithTimeout(500)`
whose wait times out. -/
theorem C7_timeout_error_message_witness :
    ((Queue.new 2 : Queue Int).run
      [Call.Push 1, Call.Pop [], Call.Push 2, Call.Push 3, Call.Push 4, Call.Pop [],
       Call.Pop [], Call.Push 5, Call.Pop []]).2.Count = 0 ∧
    (((Queue.new 2 : Queue Int).run
      [Call.Push 1, Call.Pop [], Call.Push 2, Call.Push 3, Call.Push 4, Call.Pop [],
       Call.Pop [], Call.Push 5, Call.Pop []]).2.PopWithTimeout 0 500
        ([] ++ (fun _ => ⟨[], cv_status.timeout⟩) :: [])).1
      = Outcome.threw "Can't pop because the queue is already empty." :=
  ⟨by decide,
    congrArg Prod.fst (C7_timeout_error_message
      ((Queue.new 2 : Queue Int).run
        [Call.Push 1, Call.Pop [], Call.Push 2, Call.Push 3, Call.Push 4, Call.Pop [],
         Call.Pop [], Call.Push 5, Call.Pop []]).2 0 500 [] (fun _ => ⟨[], cv_status.timeout⟩) []
      (by decide) (by decide) (by simp) (by simp))⟩

/-- C8, counterexample: at capacity 2^31, in the state reached by 2^31 - 1 pushes
(`count == 2147483647 < capacity`), `Push` leaves `Count() == -2147483648`, not
`count + 1`. -/
theorem C8_count_wraps_at_int_max :
    (1 ≤ ((Queue.new32 2147483648 : Queue Unit).run32
        ((List.replicate 2147483647 ()).map Call.Push)).2.Size ∧
      ((Queue.new32 2147483648 : Queue Unit).run32
        ((List.replicate 2147483647 ()).map Call.Push)).2.Count = 2147483647 ∧
      ((Queue.new32 2147483648 : Queue Unit).run32
        ((List.replicate 2147483647 ()).map Call.Push)).2.Size = 2147483648) ∧
    (((Queue.new32 2147483648 : Queue Unit).run32
        ((List.replicate 2147483647 ()).map Call.Push)).2.Push32 ()).Count = -2147483648 ∧
    (((Queue.new32 2147483648 : Queue Unit).run32
        ((List.replicate 2147483647 ()).map Call.Push)).2.Push32 ()).Count
      ≠ ((Queue.new32 2147483648 : Queue Unit).run32
        ((List.replicate 2147483647 ()).map Call.Push)).2.Count + 1 := by
  obtain ⟨_, h⟩ := Queue.run32_pushes_fresh (T := Unit) () 2147483648 2147483647
    (by decide) (by decide) (by decide)
  have hr : (2147483648 - 1 + 2147483647) % 2147483648 < 2147483648 :=
    Nat.mod_lt _ (by decide)
  have hp := Queue.Holds32_Push32 _ () 2147483648 0 2147483647 _ h (by decide) hr (by decide)
  have hsz : ((Queue.new32 2147483648 : Queue Unit).run32
      ((List.replicate 2147483647 ()).map Call.Push)).2.Size = 2147483648 := by
    rw [Queue.Size_eq, h.1]
  have hcnt : ((Queue.new32 2147483648 : Queue Unit).run32
      ((List.replicate 2147483647 ()).map Call.Push)).2.Count = 2147483647 := by
    rw [Queue.Count_eq, h.2.2.1]
    unfold toInt32
    omega
  have hpush : (((Queue.new32 2147483648 : Queue Unit).run32
      ((List.replicate 2147483647 ()).map Call.Push)).2.Push32 ()).Count = -2147483648 := by
    rw [Queue.Count_eq, hp.2.2.1]
    unfold toInt32
    omega
  refine ⟨⟨?_, hcnt, hsz⟩, hpush, ?_⟩
  · rw [hsz]
    decide
  · rw [hpush, hcnt]
    omega

/-- C8, amended, `Push` and the count: for every state with `1 ≤ capacity ≤ 2^31 - 1`
and `0 ≤ count ≤ capacity`, `Push` (which has no failing path) leaves the count
`min(count, capacity - 1) + 1`: `count + 1` when `count < capacity`, and still
`capacity` when `count == capacity`; the capacity is unchanged (32-bit arithmetic). -/
theorem C8_push_count {T : Type} (q : Queue T) (element : T) (hC : 1 ≤ q.Size)
    (hmax : q.Size ≤ 2147483647) (h0 : 0 ≤ q.Count) (h1 : q.Count ≤ (q.Size : Int)) :
    (q.Push32 element).Count = min q.Count ((q.Size : Int) - 1) + 1 ∧
    (q.Count < (q.Size : Int) → (q.Push32 element).Count = q.Count + 1) ∧
    (q.Count = (q.Size : Int) → (q.Push32 element).Count = (q.Size : Int)) ∧
    (q.Push32 element).Size = q.Size := by
  simp only [Queue.Count, Queue.Size] at *
  have hm : (q.queueSize : Int) ≤ 2147483647 := by exact_mod_cast hmax
  have hc1 : (1 : Int) ≤ (q.queueSize : Int) := by exact_mod_cast hC
  have hiff := eqU32_exact q.count q.queueSize h0 (by omega)
  have hcnt : (q.Push32 element).count
      = (if q.count = (q.queueSize : Int) then q.count - 1 else q.count) + 1 := by
    by_cases hc : q.count = (q.queueSize : Int)
    · simp only [Queue.Push32, if_pos (hiff.mpr hc), if_pos hc]
      rw [toInt32_of_fits (q.count - 1) ⟨by omega, by omega⟩,
        toInt32_of_fits (q.count - 1 + 1) ⟨by omega, by omega⟩]
    · simp only [Queue.Push32, if_neg (fun h32 => hc (hiff.mp h32)), if_neg hc]
      rw [toInt32_of_fits (q.count + 1) ⟨by omega, by omega⟩]
  have hsz : (q.Push32 element).queueSize = q.queueSize := by
    unfold Queue.Push32
    simp only []
    split <;> rfl
  refine ⟨?_, ?_, ?_, hsz⟩
  · rw [hcnt]
    split
    · rw [min_eq_right (by omega)]; omega
    · rw [min_eq_left (by omega)]
  · intro hlt
    rw [hcnt, if_neg (by omega)]
  · intro heq
    rw [hcnt, if_pos heq]
    omega

/-- Witness of C8: a full queue of capacity 2 stays at count 2 after `Push`. -/
theorem C8_push_count_witness :
    ((((Queue.new32 2 : Queue Int).Push32 1).Push32 2).Push32 3).Count = 2 :=
  ((C8_push_count (((Queue.new32 2 : Queue Int).Push32 1).Push32 2) 3
    (by decide) (by decide) (by decide) (by decide)).2.2.1 (by decide))

/-- C9, counterexample: at capacity 2^31, after 2^31 pushes on a fresh queue the
reference list holds 2^31 elements, but `Count()` is -2147483648 and the `count` slots
read from `front` are no slots at all. -/
theorem C9_contents_lost_at_two_pow_31 :
    1 ≤ 2147483648 ∧
    ((Queue.new32 2147483648 : Queue Unit).run32
        ((List.replicate 2147483648 ()).map Call.Push)).2.Count = -2147483648 ∧
    (Ref.run 2147483648 [] ((List.replicate 2147483648 ()).map Call.Push)).2.length
      = 2147483648 ∧
    ((Queue.new32 2147483648 : Queue Unit).run32
        ((List.replicate 2147483648 ()).map Call.Push)).2.contents = [] ∧
    ((Queue.new32 2147483648 : Queue Unit).run32
        ((List.replicate 2147483648 ()).map Call.Push)).2.contents
      ≠ (Ref.run 2147483648 [] ((List.replicate 2147483648 ()).map Call.Push)).2.map some := by
  obtain ⟨_, h⟩ := Queue.run32_pushes_fresh (T := Unit) () 2147483648 2147483648
    (by decide) (by decide) (by decide)
  have hlen := Ref.run_replicate_push_length () 2147483648 2147483648 (Nat.le_refl _)
  have hcnt : ((Queue.new32 2147483648 : Queue Unit).run32
      ((List.replicate 2147483648 ()).map Call.Push)).2.Count = -2147483648 := by
    rw [Queue.Count_eq, h.2.2.1]
    exact toInt32_two_pow_31
  have hcon : ((Queue.new32 2147483648 : Queue Unit).run32
      ((List.replicate 2147483648 ()).map Call.Push)).2.contents = [] := by
    have hz : (-2147483648 : Int).toNat = 0 := by omega
    unfold Queue.contents
    rw [h.2.2.1, toInt32_two_pow_31, hz, List.range_zero, List.map_nil]
  refine ⟨by decide, hcnt, hlen, hcon, ?_⟩
  intro heq
  have hl := congrArg List.length heq
  rw [hcon, List.length_map, hlen, List.length_nil] at hl
  omega

/-- C9, amended, the live contents refine a bounded FIFO list: for every capacity
`1 ≤ C ≤ 2^31 - 1` and every sequence of `Push` / `Pop` / `PopWithTimeout` calls on a
fresh queue, the `count` slots read from `front` with wraparound are exactly the
reference list, in which a push appends and keeps the last `C` elements and a
successful pop removes the first element; every call returns what the reference
returns, and `Count()` is the length of the reference list, which is at most `C`
(32-bit arithmetic). -/
theorem C9_contents_refine_bounded_fifo {T : Type} (C : Nat) (hC : 1 ≤ C)
    (hmax : C ≤ 2147483647) (calls : List (Call T)) :
    ((Queue.new32 C : Queue T).run32 calls).2.contents = (Ref.run C [] calls).2.map some ∧
    ((Queue.new32 C : Queue T).run32 calls).1 = (Ref.run C [] calls).1 ∧
    ((Queue.new32 C : Queue T).run32 calls).2.Count
      = ((Ref.run C [] calls).2.length : Int) ∧
    (Ref.run C [] calls).2.length ≤ C := by
  rw [Queue.new32_eq C hC hmax, Queue.run32_eq hmax _ (Refines_new (T := T) C hC)]
  obtain ⟨h1, h2⟩ := Refines_run calls (Refines_new (T := T) C hC)
  refine ⟨h2.2.2, h1, h2.count_eq, ?_⟩
  have h3 := h2.count_eq
  have h4 := h2.2.1.count_hi
  rw [h2.1] at h4
  omega

/-- Witness of C9: capacity 2, pushes 1, 2, 3 (1 is evicted) and one pop leave `[3]`. -/
theorem C9_contents_refine_bounded_fifo_witness :
    1 ≤ 2 ∧ 2 ≤ 2147483647 ∧
    (Ref.run 2 [] [Call.Push (1 : Int), Call.Push 2, Call.Push 3, Call.Pop []])
      = ([Outcome.returned (some 2)], [3]) ∧
    ((Queue.new32 2 : Queue Int).run32
      [Call.Push 1, Call.Push 2, Call.Push 3, Call.Pop []]).2.contents
      = (Ref.run 2 [] [Call.Push (1 : Int), Call.Push 2, Call.Push 3, Call.Pop []]).2.map some :=
  ⟨by decide, by decide, by decide,
    (C9_contents_refine_bounded_fifo 2 (by decide) (by decide)
      [Call.Push (1 : Int), Call.Push 2, Call.Push 3, Call.Pop []]).1⟩

/-- C10, `Size()` is immutable and a fresh queue is empty: for every capacity `C ≥ 1`
a fresh queue has `Count() == 0` and `Size() == C`, and after every sequence of `Push`,
`Pop` and `PopWithTimeout` calls, returning or throwing, `Size()` is still `C`. -/
theorem C10_size_immutable {T : Type} (C : Nat) (hC : 1 ≤ C) (calls : List (Call T)) :
    (Queue.new C : Queue T).Count = 0 ∧ (Queue.new C : Queue T).Size = C ∧
    ((Queue.new C : Queue T).run calls).2.Size = C :=
  ⟨rfl, rfl, (Refines_run calls (Refines_new (T := T) C hC)).2.1⟩

/-- Witness of C10: `Queue<int>(2)` after 5 pushes, 4 pops and a timed-out pop has
`Size() == 2`. -/
theorem C10_size_immutable_witness :
    ((Queue.new 2 : Queue Int).run
      [Call.Push 1, Call.Pop [], Call.Push 2, Call.Push 3, Call.Push 4, Call.Pop [],
       Call.Pop [], Call.Push 5, Call.Pop [],
       Call.PopWithTimeout 0 500 [fun _ => ⟨[], cv_status.timeout⟩]]).2.Size = 2 :=
  (C10_size_immutable 2 (by decide)
    [Call.Push 1, Call.Pop [], Call.Push 2, Call.Push 3, Call.Push 4, Call.Pop [],
     Call.Pop [], Call.Push 5, Call.Pop [],
     Call.PopWithTimeout 0 500 [fun _ => ⟨[], cv_status.timeout⟩]]).2.2

/-- C11, `PopWithTimeout` agrees with `Pop` on a non-empty queue: for every state with
`count > 0`, every timeout value and whatever the waits would do, both calls return
the element at `front` without failing and leave the same state, with `front`
advanced by one modulo the capacity and `count` decremented. -/
theorem C11_timed_pop_agrees_with_pop {T : Type} (q : Queue T) (now milliseconds : Int)
    (waits : List (Int → WaitReturn T)) (wakes : List (List (EnvStep T)))
    (h : 0 < q.Count) :
    q.PopWithTimeout now milliseconds waits = q.Pop wakes ∧
    q.Pop wakes = (Outcome.returned (readSlot q.array q.front),
      { q with front := (q.front + 1) % (q.queueSize : Int), count := q.count - 1 }) := by
  have h0 : q.count ≠ 0 := by
    have : 0 < q.count := h
    omega
  have hp : q.Pop wakes = (Outcome.returned (readSlot q.array q.front),
      { q with front := (q.front + 1) % (q.queueSize : Int), count := q.count - 1 }) := by
    cases wakes <;> simp [Queue.Pop, h0]
  have ht : q.PopWithTimeout now milliseconds waits
      = (Outcome.returned (readSlot q.array q.front),
      { q with front := (q.front + 1) % (q.queueSize : Int), count := q.count - 1 }) := by
    cases waits <;> simp [Queue.PopWithTimeout, Queue.PopWithTimeout.loop, h0]
  exact ⟨by rw [ht, hp], hp⟩

/-- Witness of C11: capacity 3 holding 10 and 20; both pops return 10. -/
theorem C11_timed_pop_agrees_with_pop_witness :
    (((Queue.new 3 : Queue Int).Push 10).Push 20).PopWithTimeout 0 500
        [fun _ => ⟨[EnvStep.push 30], cv_status.timeout⟩]
      = (((Queue.new 3 : Queue Int).Push 10).Push 20).Pop [] ∧
    ((((Queue.new 3 : Queue Int).Push 10).Push 20).Pop []).1 = Outcome.returned (some 10) :=
  ⟨(C11_timed_pop_agrees_with_pop (((Queue.new 3 : Queue Int).Push 10).Push 20) 0 500
      [fun _ => ⟨[EnvStep.push 30], cv_status.timeout⟩] [] (by decide)).1, by decide⟩

/-- C14, counterexample: at capacity 2147483649 = 2^31 + 1 the fresh queue already has
`rear == -2147483648`, outside `[0, C)`; and at capacity 2^31 the first `Push`
overflows the `int` addition `rear + 1`. -/
theorem C14_rear_negative_above_int_max :
    1 ≤ 2147483649 ∧
    (Queue.reached32 2147483649 ([] : List (Call Unit)) []).rear = -2147483648 ∧
    ¬ (0 ≤ (Queue.reached32 2147483649 ([] : List (Call Unit)) []).rear) ∧
    ¬ fitsInt32 ((Queue.new32 2147483648 : Queue Unit).rear + 1) := by
  have hr : (Queue.reached32 2147483649 ([] : List (Call Unit)) []).rear = -2147483648 := by
    rw [Queue.reached32_nil]
    exact Queue.new32_rear_negative
  refine ⟨by decide, hr, ?_, Queue.new32_rear_overflow⟩
  rw [hr]
  omega

/-- C14, amended, index validity: for every capacity `1 ≤ C ≤ 2^31 - 1`, in every state
reached from a fresh queue by calls (and by steps of other threads during a wait),
`front`, `rear` and the next-write index `(rear + 1) % queueSize` lie in `[0, C)`, the
storage has length `C`, and the divisor `queueSize` of every modulo is `C`, which is
not zero (32-bit arithmetic). -/
theorem C14_index_validity {T : Type} (C : Nat) (hC : 1 ≤ C) (hmax : C ≤ 2147483647)
    (calls : List (Call T)) (env : List (EnvStep T)) :
    (0 ≤ (Queue.reached32 C calls env).front ∧
      (Queue.reached32 C calls env).front < (C : Int)) ∧
    (0 ≤ (Queue.reached32 C calls env).rear ∧
      (Queue.reached32 C calls env).rear < (C : Int)) ∧
    (0 ≤ remU32 ((Queue.reached32 C calls env).rear + 1)
        (Queue.reached32 C calls env).queueSize ∧
      remU32 ((Queue.reached32 C calls env).rear + 1)
        (Queue.reached32 C calls env).queueSize < (C : Int)) ∧
    (Queue.reached32 C calls env).array.length = C ∧
    (Queue.reached32 C calls env).queueSize = C ∧
    (Queue.reached32 C calls env).queueSize ≠ 0 := by
  rw [Queue.reached32_eq C hC hmax calls env]
  obtain ⟨hs, hw⟩ := Queue.WF_reached C hC calls env
  have hpos : (0 : Int) < (C : Int) := by exact_mod_cast hC
  have hm : (C : Int) ≤ 2147483647 := by exact_mod_cast hmax
  have h1 := hw.front_lo
  have h2 := hw.front_hi
  have h3 := hw.rear_lo
  have h4 := hw.rear_hi
  have h5 := hw.array_len
  rw [hs] at h2 h4 h5 ⊢
  have h6 := emod_range ((Queue.reached C calls env).rear + 1) C hpos
  rw [remU32_exact _ C (by omega) (by omega) hC hmax]
  exact ⟨⟨h1, h2⟩, ⟨h3, h4⟩, h6, h5, rfl, by omega⟩

/-- Witness of C14: capacity 2 after three pushes, a pop and a push by another thread. -/
theorem C14_index_validity_witness :
    (Queue.reached32 2 [Call.Push (1 : Int), Call.Push 2, Call.Push 3, Call.Pop []]
      [EnvStep.push 4]).front = 0 ∧
    (Queue.reached32 2 [Call.Push (1 : Int), Call.Push 2, Call.Push 3, Call.Pop []]
      [EnvStep.push 4]).rear = 1 ∧
    (Queue.reached32 2 [Call.Push (1 : Int), Call.Push 2, Call.Push 3, Call.Pop []]
      [EnvStep.push 4]).front < ((2 : Nat) : Int) :=
  ⟨by decide, by decide,
    (C14_index_validity 2 (by decide) (by decide)
      [Call.Push (1 : Int), Call.Push 2, Call.Push 3, Call.Pop []] [EnvStep.push 4]).1.2⟩

/-- C15, counterexample: at capacity 2147483649 = 2^31 + 1 the fresh queue has
`rear == -2147483648`, so `(rear + 1) mod C` is 2, which is neither 0 nor
`(front + count) mod C`; and at capacity 2^31 the first `Push` overflows the `int`
addition `rear + 1`. -/
theorem C15_cursor_relation_fails_above_int_max :
    1 ≤ 2147483649 ∧
    ((Queue.new32 2147483649 : Queue Unit).rear + 1) % ((2147483649 : Nat) : Int) = 2 ∧
    ((Queue.new32 2147483649 : Queue Unit).rear + 1) % ((2147483649 : Nat) : Int) ≠ 0 ∧
    ((Queue.new32 2147483649 : Queue Unit).rear + 1) % ((2147483649 : Nat) : Int)
      ≠ ((Queue.new32 2147483649 : Queue Unit).front
          + (Queue.new32 2147483649 : Queue Unit).count) % ((2147483649 : Nat) : Int) ∧
    ¬ fitsInt32 ((Queue.new32 2147483648 : Queue Unit).rear + 1) := by
  have hr : ((Queue.new32 2147483649 : Queue Unit).rear + 1) % ((2147483649 : Nat) : Int)
      = 2 := by
    rw [Queue.new32_rear_negative]
    omega
  have hf : (Queue.new32 2147483649 : Queue Unit).front = 0 := rfl
  have hc : (Queue.new32 2147483649 : Queue Unit).count = 0 := rfl
  refine ⟨by decide, hr, ?_, ?_, Queue.new32_rear_overflow⟩
  · rw [hr]
    omega
  · rw [hr, hf, hc]
    omega

/-- C15, amended, cursor relation: for every capacity `1 ≤ C ≤ 2^31 - 1`, in every state
reached from a fresh queue the index of the next write, `(rear + 1) mod C`, equals
`(front + count) mod C`; on a fresh queue it is 0; and when the queue is full it is
`front`, so the next `Push` stores its element in the slot of the evicted oldest
element (32-bit arithmetic). -/
theorem C15_cursor_relation {T : Type} (C : Nat) (hC : 1 ≤ C) (hmax : C ≤ 2147483647)
    (calls : List (Call T)) (env : List (EnvStep T)) (element : T) :
    ((Queue.reached32 C calls env).rear + 1) % (C : Int)
      = ((Queue.reached32 C calls env).front + (Queue.reached32 C calls env).count)
          % (C : Int) ∧
    ((Queue.new32 C : Queue T).rear + 1) % (C : Int) = 0 ∧
    ((Queue.reached32 C calls env).count = (C : Int) →
      ((Queue.reached32 C calls env).rear + 1) % (C : Int)
        = (Queue.reached32 C calls env).front ∧
      ((Queue.reached32 C calls env).Push32 element).rear
        = (Queue.reached32 C calls env).front) := by
  rw [Queue.reached32_eq C hC hmax calls env, Queue.new32_eq C hC hmax]
  obtain ⟨hs, hw⟩ := Queue.WF_reached C hC calls env
  have hpos : (0 : Int) < (C : Int) := by exact_mod_cast hC
  have hn := hw.next_write
  have h1 := hw.front_lo
  have h2 := hw.front_hi
  rw [hs] at hn h2
  refine ⟨hn, by simp [Queue.new], ?_⟩
  intro hfull
  have hf : ((Queue.reached C calls env).rear + 1) % (C : Int)
      = (Queue.reached C calls env).front := by
    rw [hn, hfull, Int.add_emod_self, Int.emod_eq_of_lt h1 h2]
  refine ⟨hf, ?_⟩
  rw [Queue.Push32_eq _ element hw (by rw [hs]; exact hmax)]
  have hr : ((Queue.reached C calls env).Push element).rear
      = ((Queue.reached C calls env).rear + 1) % ((Queue.reached C calls env).queueSize : Int) := by
    unfold Queue.Push
    simp only []
    split <;> rfl
  rw [hr, hs, hf]

/-- Witness of C15: a full queue of capacity 2 (front 0) writes the next element at 0. -/
theorem C15_cursor_relation_witness :
    (Queue.reached32 2 [Call.Push (1 : Int), Call.Push 2] []).count = ((2 : Nat) : Int) ∧
    ((Queue.reached32 2 [Call.Push (1 : Int), Call.Push 2] []).Push32 3).rear
      = (Queue.reached32 2 [Call.Push (1 : Int), Call.Push 2] []).front :=
  ⟨by decide,
    ((C15_cursor_relation 2 (by decide) (by decide) [Call.Push (1 : Int), Call.Push 2] [] 3).2.2
      (by decide)).2⟩

/-- C16, predicate-checked wait: whatever the waits do (any steps of other threads, any
wake reason), a `Pop` or `PopWithTimeout` that returns an element performed its dequeue
step in a state with `count != 0` (the state left by the wake-ups consumed so far); a
call still blocked has `count == 0`; and a wake-up that finds `count == 0`, without a
timeout, continues with the next wait. -/
theorem C16_predicate_checked_wait {T : Type} (q : Queue T) (wakes : List (List (EnvStep T)))
    (now milliseconds : Int) (waits : List (Int → WaitReturn T)) :
    (∀ x, (q.Pop wakes).1 = Outcome.returned x →
      ∃ n, n ≤ wakes.length ∧ ((wakes.take n).foldl Queue.interfere q).count ≠ 0 ∧
        q.Pop wakes = ((wakes.take n).foldl Queue.interfere q).dequeue) ∧
    (∀ x, (q.PopWithTimeout now milliseconds waits).1 = Outcome.returned x →
      ∃ n, n ≤ waits.length ∧
        ((waits.take n).foldl
          (fun s w => s.interfere (w (now + milliseconds)).env) q).count ≠ 0 ∧
        q.PopWithTimeout now milliseconds waits
          = ((waits.take n).foldl
              (fun s w => s.interfere (w (now + milliseconds)).env) q).dequeue) ∧
    ((q.Pop wakes).1 = Outcome.blocked → (q.Pop wakes).2.count = 0) ∧
    ((q.PopWithTimeout now milliseconds waits).1 = Outcome.blocked →
      (q.PopWithTimeout now milliseconds waits).2.count = 0) ∧
    (∀ w ws, q.count = 0 → q.Pop (w :: ws) = (q.interfere w).Pop ws) ∧
    (∀ w ws, q.count = 0 → (w (now + milliseconds)).status = cv_status.no_timeout →
      q.PopWithTimeout now milliseconds (w :: ws)
        = (q.interfere (w (now + milliseconds)).env).PopWithTimeout now milliseconds ws) := by
  refine ⟨Queue.Pop_returned wakes q, Queue.PopWithTimeout.loop_returned _ waits q,
    Queue.Pop_blocked wakes q, Queue.PopWithTimeout.loop_blocked _ waits q, ?_, ?_⟩
  · intro w ws h0
    simp [Queue.Pop, h0]
  · intro w ws h0 hs
    simp [Queue.PopWithTimeout, Queue.PopWithTimeout.loop, h0, hs]

/-- Witness of C16: on an empty queue of capacity 2 a spurious wake-up is followed by a
wake-up after a push of 5; the dequeue happens in the state with `count == 1`. -/
theorem C16_predicate_checked_wait_witness :
    ((Queue.new 2 : Queue Int).Pop [[], [EnvStep.push 5]]).1 = Outcome.returned (some 5) ∧
    ∃ n, n ≤ [[], [EnvStep.push (5 : Int)]].length ∧
      (([[], [EnvStep.push (5 : Int)]].take n).foldl Queue.interfere
        (Queue.new 2 : Queue Int)).count ≠ 0 ∧
      (Queue.new 2 : Queue Int).Pop [[], [EnvStep.push 5]]
        = (([[], [EnvStep.push (5 : Int)]].take n).foldl Queue.interfere
            (Queue.new 2 : Queue Int)).dequeue :=
  ⟨by decide,
    (C16_predicate_checked_wait (Queue.new 2 : Queue Int) [[], [EnvStep.push 5]] 0 0 []).1
      (some 5) (by decide)⟩

/-- C17, absolute deadline: `PopWithTimeout` computes the deadline once, as the clock
reading on entry plus the requested milliseconds, and every `wait_until` of the call
is given that value: what the call does depends on the waits only through their
behaviour for the deadline `now + milliseconds`, however many wake-ups occur. -/
theorem C17_absolute_deadline {T : Type} (q : Queue T) (now milliseconds : Int)
    (waits waits1 : List (Int → WaitReturn T))
    (h : List.Forall₂ (fun w w1 => w (now + milliseconds) = w1 (now + milliseconds))
      waits waits1) :
    q.PopWithTimeout now milliseconds waits = q.PopWithTimeout now milliseconds waits1 :=
  Queue.PopWithTimeout.loop_congr (now + milliseconds) waits waits1 h q

/-- Witness of C17: two waits that time out exactly for the deadline 0 + 500, after a
spurious wake-up, behave as waits that always do so. -/
theorem C17_absolute_deadline_witness :
    (Queue.new 2 : Queue Int).PopWithTimeout 0 500
        [fun d => if d = 500 then ⟨[], cv_status.no_timeout⟩ else ⟨[], cv_status.timeout⟩,
         fun d => if d = 500 then ⟨[], cv_status.timeout⟩ else ⟨[EnvStep.push 1], cv_status.no_timeout⟩]
      = (Queue.new 2 : Queue Int).PopWithTimeout 0 500
        [fun _ => ⟨[], cv_status.no_timeout⟩, fun _ => ⟨[], cv_status.timeout⟩] :=
  C17_absolute_deadline (Queue.new 2 : Queue Int) 0 500 _ _
    (List.Forall₂.cons (by decide) (List.Forall₂.cons (by decide) List.Forall₂.nil))

/-- C18, counterexample: at capacity 2^31, after 2^31 pushes on a fresh queue the calls
have printed 2^31 pushes, no eviction and no pop, but `Count()` is -2147483648. -/
theorem C18_count_not_conserved_at_two_pow_31 :
    1 ≤ 2147483648 ∧
    ((Queue.new32 2147483648 : Queue Unit).run32
        ((List.replicate 2147483648 ()).map Call.Push)).2.Count = -2147483648 ∧
    (Printed.pushed (Queue.run32.printed (Queue.new32 2147483648 : Queue Unit)
        ((List.replicate 2147483648 ()).map Call.Push))).length = 2147483648 ∧
    (Printed.evicted (Queue.run32.printed (Queue.new32 2147483648 : Queue Unit)
        ((List.replicate 2147483648 ()).map Call.Push))).length = 0 ∧
    (Printed.popped (Queue.run32.printed (Queue.new32 2147483648 : Queue Unit)
        ((List.replicate 2147483648 ()).map Call.Push))).length = 0 ∧
    ((Queue.new32 2147483648 : Queue Unit).run32
        ((List.replicate 2147483648 ()).map Call.Push)).2.Count
      ≠ ((Printed.pushed (Queue.run32.printed (Queue.new32 2147483648 : Queue Unit)
          ((List.replicate 2147483648 ()).map Call.Push))).length : Int)
        - ((Printed.evicted (Queue.run32.printed (Queue.new32 2147483648 : Queue Unit)
          ((List.replicate 2147483648 ()).map Call.Push))).length : Int)
        - ((Printed.popped (Queue.run32.printed (Queue.new32 2147483648 : Queue Unit)
          ((List.replicate 2147483648 ()).map Call.Push))).length : Int) := by
  obtain ⟨_, h⟩ := Queue.run32_pushes_fresh (T := Unit) () 2147483648 2147483648
    (by decide) (by decide) (by decide)
  have hcnt : ((Queue.new32 2147483648 : Queue Unit).run32
      ((List.replicate 2147483648 ()).map Call.Push)).2.Count = -2147483648 := by
    rw [Queue.Count_eq, h.2.2.1]
    exact toInt32_two_pow_31
  have hp : Queue.run32.printed (Queue.new32 2147483648 : Queue Unit)
      ((List.replicate 2147483648 ()).map Call.Push)
      = List.replicate 2147483648 (Printed.push ()) := by
    rw [List.map_replicate]
    exact Queue.run32_printed_pushes () 2147483648 0 (by decide) 2147483648
      (Queue.new32 2147483648) 0 (2147483648 - 1)
      (Queue.Holds32_new 2147483648 (by decide) (by decide)) (by decide) (by decide)
  obtain ⟨h1, h2, h3⟩ := Printed.pushed_replicate () 2147483648
  have e1 : (Printed.pushed (Queue.run32.printed (Queue.new32 2147483648 : Queue Unit)
      ((List.replicate 2147483648 ()).map Call.Push))).length = 2147483648 := by
    rw [hp, h1, List.length_replicate]
  have e2 : (Printed.evicted (Queue.run32.printed (Queue.new32 2147483648 : Queue Unit)
      ((List.replicate 2147483648 ()).map Call.Push))).length = 0 := by
    rw [hp, h2, List.length_nil]
  have e3 : (Printed.popped (Queue.run32.printed (Queue.new32 2147483648 : Queue Unit)
      ((List.replicate 2147483648 ()).map Call.Push))).length = 0 := by
    rw [hp, h3, List.length_nil]
  refine ⟨by decide, hcnt, e1, e2, e3, ?_⟩
  rw [hcnt, e1, e2, e3]
  omega

/-- C18, amended, count conservation: for every capacity `1 ≤ C ≤ 2^31 - 1`, after every
sequence of calls on a fresh queue, `Count()` equals the number of pushes minus the
number of evictions minus the number of successful pops (as printed by the calls); a
`Push` evicts exactly when its comparison `count == queueSize` holds, and then exactly
one element (32-bit arithmetic). -/
theorem C18_count_conservation {T : Type} (C : Nat) (hC : 1 ≤ C) (hmax : C ≤ 2147483647)
    (calls : List (Call T)) :
    ((Queue.new32 C : Queue T).run32 calls).2.Count
      = ((Printed.pushed (Queue.run32.printed (Queue.new32 C : Queue T) calls)).length : Int)
        - ((Printed.evicted (Queue.run32.printed (Queue.new32 C : Queue T) calls)).length : Int)
        - ((Printed.popped (Queue.run32.printed (Queue.new32 C : Queue T) calls)).length : Int) ∧
    (∀ (q : Queue T) (e : T),
      (Printed.evicted (Queue.Push32.printed q e)).length
          = (if toUInt32 q.Count = q.Size then 1 else 0) ∧
      (Printed.pushed (Queue.Push32.printed q e)).length = 1 ∧
      (Printed.popped (Queue.Push32.printed q e)).length = 0) := by
  constructor
  · rw [Queue.new32_eq C hC hmax, Queue.run32_eq hmax _ (Refines_new (T := T) C hC),
      Queue.run32_printed_eq hmax _ (Refines_new (T := T) C hC)]
    have h := Queue.run_count_net calls (Queue.new C : Queue T)
    simpa [Queue.Count, Printed.net, Queue.new] using h
  · intro q e
    unfold Queue.Push32.printed Queue.Count Queue.Size
    split <;> simp [Printed.evicted, Printed.pushed, Printed.popped]

/-- Witness of C18: capacity 2, five pushes with exactly one eviction and four pops
give `Count() == 0`. -/
theorem C18_count_conservation_witness :
    (Printed.pushed (Queue.run32.printed (Queue.new32 2 : Queue Int)
      [Call.Push 1, Call.Push 2, Call.Push 3, Call.Pop [], Call.Pop [], Call.Push 4,
       Call.Pop [], Call.Push 5, Call.Pop []])).length = 5 ∧
    (Printed.evicted (Queue.run32.printed (Queue.new32 2 : Queue Int)
      [Call.Push 1, Call.Push 2, Call.Push 3, Call.Pop [], Call.Pop [], Call.Push 4,
       Call.Pop [], Call.Push 5, Call.Pop []])) = [some 1] ∧
    (Printed.popped (Queue.run32.printed (Queue.new32 2 : Queue Int)
      [Call.Push 1, Call.Push 2, Call.Push 3, Call.Pop [], Call.Pop [], Call.Push 4,
       Call.Pop [], Call.Push 5, Call.Pop []])).length = 4 ∧
    ((Queue.new32 2 : Queue Int).run32
      [Call.Push 1, Call.Push 2, Call.Push 3, Call.Pop [], Call.Pop [], Call.Push 4,
       Call.Pop [], Call.Push 5, Call.Pop []]).2.Count = ((5 : Nat) : Int) - ((1 : Nat) : Int) - ((4 : Nat) : Int) :=
  ⟨by decide, by decide, by decide,
    (C18_count_conservation 2 (by decide) (by decide)
      [Call.Push 1, Call.Push 2, Call.Push 3, Call.Pop [], Call.Pop [], Call.Push 4,
       Call.Pop [], Call.Push 5, Call.Pop []]).1⟩

/-- C19, counterexample: at capacity 2147483649 = 2^31 + 1, after C pushes on a fresh
queue and C pops, one of the values returned to the caller is a never-written value:
the pop read `array[front]` with `front == -2147483648`; and at capacity 2^31 the
first `Push` overflows the `int` addition `rear + 1`. -/
theorem C19_unwritten_value_returned_above_int_max :
    1 ≤ 2147483649 ∧
    none ∈ Outcome.values ((Queue.new32 2147483649 : Queue Unit).run32
      ((List.replicate 2147483649 ()).map Call.Push
        ++ List.replicate 2147483649 (Call.Pop []))).1 ∧
    ¬ (∀ x ∈ Outcome.values ((Queue.new32 2147483649 : Queue Unit).run32
      ((List.replicate 2147483649 ()).map Call.Push
        ++ List.replicate 2147483649 (Call.Pop []))).1, x ≠ none) ∧
    ¬ fitsInt32 ((Queue.new32 2147483648 : Queue Unit).rear + 1) := by
  have hm := Outcome.mem_values none _
    (Queue.run32_fill_then_pop () 2147483649 (by decide) (by decide))
  exact ⟨by decide, hm, fun h => h none hm rfl, Queue.new32_rear_overflow⟩

/-- C19, amended, no uninitialised reads: for every capacity `1 ≤ C ≤ 2^31 - 1` and
every sequence of calls on a fresh queue, every element reported by a successful pop is
`some e` for a `Push(e)` printed earlier; the popped elements, in order and with
multiplicity, form a subsequence of the pushed ones, so no pushed element is returned
more than once; the values returned to the caller are among these pops, and none of
them is a never-written slot (32-bit arithmetic). -/
theorem C19_no_uninitialised_reads {T : Type} (C : Nat) (hC : 1 ≤ C) (hmax : C ≤ 2147483647)
    (calls : List (Call T)) :
    (∀ (L1 : List (Printed T)) (x : Option T) (L2 : List (Printed T)),
      Queue.run32.printed (Queue.new32 C : Queue T) calls = L1 ++ Printed.pop x :: L2 →
        ∃ e, x = some e ∧ Printed.push e ∈ L1) ∧
    List.Sublist (Printed.popped (Queue.run32.printed (Queue.new32 C : Queue T) calls))
      ((Printed.pushed (Queue.run32.printed (Queue.new32 C : Queue T) calls)).map some) ∧
    List.Sublist (Outcome.values ((Queue.new32 C : Queue T).run32 calls).1)
      (Printed.popped (Queue.run32.printed (Queue.new32 C : Queue T) calls)) ∧
    (∀ x ∈ Outcome.values ((Queue.new32 C : Queue T).run32 calls).1, x ≠ none) := by
  rw [Queue.new32_eq C hC hmax, Queue.run32_eq hmax _ (Refines_new (T := T) C hC),
    Queue.run32_printed_eq hmax _ (Refines_new (T := T) C hC)]
  have hf := Fifo_run calls (Refines_new (T := T) C hC)
  have h2 := Printed.Fifo_popped_sublist _ _ _ hf
  rw [List.nil_append] at h2
  have h3 := Queue.run_values_sublist calls (Queue.new C : Queue T)
  refine ⟨?_, h2, h3, ?_⟩
  · intro L1 x L2 hL
    obtain ⟨e, hx, hmem⟩ := Printed.Fifo_pop_pushed_before _ _ _ hf L1 x L2 hL
    rcases hmem with hmem | hmem
    · simp at hmem
    · exact ⟨e, hx, hmem⟩
  · intro x hx hnone
    have h4 := (h3.trans h2).subset hx
    rw [hnone] at h4
    simp at h4

/-- Witness of C19: capacity 2, pushes 1, 2, 3 and two pops: the pops return 2 and 3,
which were pushed, and the dropped element 1 is never returned. -/
theorem C19_no_uninitialised_reads_witness :
    Queue.run32.printed (Queue.new32 2 : Queue Int)
        [Call.Push 1, Call.Push 2, Call.Push 3, Call.Pop [], Call.Pop []]
      = [Printed.push 1, Printed.push 2, Printed.push 3, Printed.dropped (some 1),
         Printed.pop (some 2), Printed.pop (some 3)] ∧
    Outcome.values ((Queue.new32 2 : Queue Int).run32
        [Call.Push 1, Call.Push 2, Call.Push 3, Call.Pop [], Call.Pop []]).1
      = [some 2, some 3] ∧
    List.Sublist (Outcome.values ((Queue.new32 2 : Queue Int).run32
        [Call.Push 1, Call.Push 2, Call.Push 3, Call.Pop [], Call.Pop []]).1)
      (Printed.popped (Queue.run32.printed (Queue.new32 2 : Queue Int)
        [Call.Push 1, Call.Push 2, Call.Push 3, Call.Pop [], Call.Pop []])) :=
  ⟨by decide, by decide,
    (C19_no_uninitialised_reads 2 (by decide) (by decide)
      [Call.Push (1 : Int), Call.Push 2, Call.Push 3, Call.Pop [], Call.Pop []]).2.2.1⟩

/-- C20, the mixed signed/unsigned arithmetic is exact: for every capacity `C` with
`1 ≤ C ≤ 2^31 - 1`, the member functions computed in 32-bit arithmetic do exactly what
they do over the integers, on every sequence of calls from a fresh queue; the initial
`rear = size - 1` fits in `int`; and in every state reached, `front + 1`, `rear + 1`
and the `count + 1` of `Push` (taken after the eviction) do not overflow, the unsigned
comparison `count == queueSize` holds exactly when the values are equal, and
`(front + 1) % queueSize`, `(rear + 1) % queueSize` have their mathematical values. -/
theorem C20_arithmetic_exact {T : Type} (C : Nat) (hC : 1 ≤ C) (hmax : C ≤ 2147483647)
    (calls : List (Call T)) (env : List (EnvStep T)) :
    ((Queue.new32 C : Queue T) = Queue.new C ∧ fitsInt32 ((C : Int) - 1) ∧
      (Queue.new32 C : Queue T).rear = (C : Int) - 1) ∧
    (Queue.new32 C : Queue T).run32 calls = (Queue.new C : Queue T).run calls ∧
    (Queue.reached32 C calls env : Queue T) = Queue.reached C calls env ∧
    fitsInt32 ((Queue.reached32 C calls env : Queue T).front + 1) ∧
    fitsInt32 ((Queue.reached32 C calls env : Queue T).rear + 1) ∧
    fitsInt32 ((if (Queue.reached32 C calls env : Queue T).count = (C : Int)
      then (Queue.reached32 C calls env : Queue T).count - 1
      else (Queue.reached32 C calls env : Queue T).count) + 1) ∧
    (toUInt32 (Queue.reached32 C calls env : Queue T).count
        = (Queue.reached32 C calls env : Queue T).queueSize
      ↔ (Queue.reached32 C calls env : Queue T).count = (C : Int)) ∧
    remU32 ((Queue.reached32 C calls env : Queue T).front + 1)
        (Queue.reached32 C calls env : Queue T).queueSize
      = ((Queue.reached32 C calls env : Queue T).front + 1) % (C : Int) ∧
    remU32 ((Queue.reached32 C calls env : Queue T).rear + 1)
        (Queue.reached32 C calls env : Queue T).queueSize
      = ((Queue.reached32 C calls env : Queue T).rear + 1) % (C : Int) := by
  have hc0 : (1 : Int) ≤ (C : Int) := by exact_mod_cast hC
  have hc1 : (C : Int) ≤ 2147483647 := by exact_mod_cast hmax
  have hnew := Queue.new32_eq (T := T) C hC hmax
  have hreach := Queue.reached32_eq (T := T) C hC hmax calls env
  obtain ⟨hs, hw⟩ := Queue.WF_reached (T := T) C hC calls env
  rw [← hreach] at hs hw
  have h1 := hw.front_lo
  have h2 := hw.front_hi
  have h3 := hw.rear_lo
  have h4 := hw.rear_hi
  have h5 := hw.count_lo
  have h6 := hw.count_hi
  have hpos := hw.size_pos
  rw [hs] at h2 h4 h6 hpos
  refine ⟨⟨hnew, ⟨by omega, by omega⟩, by rw [hnew]; rfl⟩, ?_, hreach, ⟨by omega, by omega⟩,
    ⟨by omega, by omega⟩, ?_, ?_, ?_, ?_⟩
  · rw [hnew]
    exact Queue.run32_eq hmax calls (Refines_new (T := T) C hC)
  · split <;> exact ⟨by omega, by omega⟩
  · rw [hs]
    exact eqU32_exact _ C h5 (by omega)
  · rw [hs]
    exact remU32_exact _ C (by omega) (by omega) hpos hmax
  · rw [hs]
    exact remU32_exact _ C (by omega) (by omega) hpos hmax

/-- Witness of C20: capacity 2 after three pushes and a pop. -/
theorem C20_arithmetic_exact_witness :
    (Queue.new32 2 : Queue Int).run32 [Call.Push 1, Call.Push 2, Call.Push 3, Call.Pop []]
      = (Queue.new 2 : Queue Int).run [Call.Push 1, Call.Push 2, Call.Push 3, Call.Pop []] ∧
    (Queue.new32 2 : Queue Int).run32 [Call.Push 1, Call.Push 2, Call.Push 3, Call.Pop []]
      = ([Outcome.returned (some 2)], ⟨0, 0, 1, 2, [some 3, some 2]⟩) :=
  ⟨(C20_arithmetic_exact 2 (by decide) (by decide)
      [Call.Push (1 : Int), Call.Push 2, Call.Push 3, Call.Pop []] []).2.1, by decide⟩

end MultiThreadedQ
